import Mathlib

/-!
# Tea-or-Coffee: session-scoped order store and popularity counter

A shallow embedding of `main.go`.  Text that the handlers work on is a Lean
string, read rune by rune through `String.data`; file names and the fields of
an order on its way to a file are Go strings, sequences of bytes.  The Go `int`
of a popularity count is an `Int` kept in the 64-bit two's-complement range by
`wrapInt64`.  File contents are represented by what `encoding/json` decodes
them to.
-/

namespace TeaOrCoffee

/-! ## Session names -/

/-- The test applied to one rune by the loop of `isValidSessionName`. -/
def isValidSessionRune (r : Char) : Bool :=
  (decide ('a' ≤ r) && decide (r ≤ 'z')) ||
  (decide ('A' ≤ r) && decide (r ≤ 'Z')) ||
  (decide ('0' ≤ r) && decide (r ≤ '9')) ||
  r == '-' || r == '_'

/-- The loop `for _, r := range name` of `isValidSessionName`:
an accepted rune continues, any other rune returns false, the end returns true. -/
def isValidSessionNameLoop : List Char → Bool
  | [] => true
  | r :: rest => if isValidSessionRune r then isValidSessionNameLoop rest else false

/-- Go `isValidSessionName`. -/
def isValidSessionName (name : String) : Bool :=
  isValidSessionNameLoop name.data

/-! ## Strings -/

/-- Go compares strings byte by byte; on well-formed UTF-8 that is the
lexicographic order of the runes, a proper prefix coming first. -/
def runesLess : List Char → List Char → Bool
  | _, [] => false
  | [], _ :: _ => true
  | x :: xs, y :: ys =>
    if x.toNat < y.toNat then true
    else if y.toNat < x.toNat then false
    else runesLess xs ys

/-- Go `a < b` on strings. -/
def stringLess (a b : String) : Bool := runesLess a.data b.data

/-! ## Popularity items and their order -/

/-- Go `popularItem`. -/
structure popularItem where
  Drink : String
  Count : Int
deriving DecidableEq, Repr

/-- The `Counts` field of Go `PopularStats`: a `map[string]int`, kept as an
association list.  The order of the list stands for the (unspecified) order in
which `range` visits the map. -/
abbrev Counts := List (String × Int)

/-- Keys of a Go map are pairwise distinct. -/
def Counts.WF (m : Counts) : Prop := (m.map Prod.fst).Nodup

/-- The less function handed to `sort.Slice` by `handlePopular` and
`adminHandlePopular`. -/
def popularLess (a b : popularItem) : Bool :=
  if a.Count = b.Count then stringLess a.Drink b.Drink else decide (a.Count > b.Count)

/-- One insertion step of the sort: `x` goes before the first element it is
less than. -/
def insertByLess {α : Type} (less : α → α → Bool) (x : α) : List α → List α
  | [] => [x]
  | y :: ys => if less x y then x :: y :: ys else y :: insertByLess less x ys

/-- Go `sort.Slice(items, less)`, modelled as an insertion sort driven by the
same `less`. -/
def sortSlice {α : Type} (less : α → α → Bool) (items : List α) : List α :=
  items.foldr (insertByLess less) []

/-- The loop `for drink, count := range stats.Counts { items = append(...) }`. -/
def collectItems (counts : Counts) : List popularItem :=
  counts.map (fun e => { Drink := e.1, Count := e.2 })

/-- The body shared by `handlePopular` and `adminHandlePopular` after the load:
collect the items and sort them. -/
def popularSnapshot (counts : Counts) : List popularItem :=
  sortSlice popularLess (collectItems counts)

/-- The order the specification asks of two adjacent items: a larger count
first, and among equal counts the smaller drink name first. -/
def PopularBefore (a b : popularItem) : Prop :=
  a.Count > b.Count ∨ (a.Count = b.Count ∧ stringLess a.Drink b.Drink = true)

instance (a b : popularItem) : Decidable (PopularBefore a b) := by
  unfold PopularBefore; infer_instance

/-- The character class `[A-Za-z0-9_-]` of the specification. -/
def InSessionClass (c : Char) : Prop :=
  c.isAlphanum = true ∨ c = '_' ∨ c = '-'

/-! ## The popularity record `popular.json` -/

/-- Go `int` arithmetic is 64-bit two's complement: a result is reduced into
`[-2^63, 2^63)`. -/
def wrapInt64 (x : Int) : Int := (x + 2 ^ 63) % 2 ^ 64 - 2 ^ 63

/-- What `json.Unmarshal(data, &stats)` makes of the bytes of `popular.json`. -/
inductive PopularData where
  /-- Bytes that `json.Unmarshal` rejects. -/
  | malformed
  /-- Bytes that decode to a `PopularStats`; `none` is a nil `Counts`. -/
  | stats (counts : Option Counts)
deriving DecidableEq, Repr

/-- The file `popular.json`; `none` when it does not exist. -/
abbrev PopularFile := Option PopularData

/-- The error value of the storage functions. -/
inductive StorageError where
  | ioFailure
deriving DecidableEq, Repr

/-- How an `os.WriteFile` call ends: it succeeds, it fails before the file is
opened (nothing changes), or it fails after the truncation (a proper prefix of
the JSON text is left, which does not parse). -/
inductive WriteOutcome where
  | ok
  | openFails
  | writeFails
deriving DecidableEq, Repr

/-- Go `m[k]` lookup with the comma-ok result. -/
def Counts.find : Counts → String → Option Int
  | [], _ => none
  | (k, v) :: rest, key => if k = key then some v else Counts.find rest key

/-- Go `m[k] = v`. -/
def Counts.set : Counts → String → Int → Counts
  | [], key, v => [(key, v)]
  | (k, w) :: rest, key, v =>
    if k = key then (key, v) :: rest else (k, w) :: Counts.set rest key v

/-- Go `loadPopularStats`.  `readFails` is an `os.ReadFile` error other than
"does not exist". -/
def loadPopularStats (readFails : Bool) (file : PopularFile) : Except StorageError Counts :=
  if readFails then .error .ioFailure
  else
    match file with
    | none => .ok []
    | some .malformed => .ok []
    | some (.stats none) => .ok []
    | some (.stats (some counts)) => .ok counts

/-- Go `savePopularStats`: marshalling a `map[string]int` cannot fail, the
write can. -/
def savePopularStats (w : WriteOutcome) (counts : Counts) (file : PopularFile) :
    Except StorageError Unit × PopularFile :=
  match w with
  | .ok => (.ok (), some (.stats (some counts)))
  | .openFails => (.error .ioFailure, file)
  | .writeFails => (.error .ioFailure, some .malformed)

/-- Go `incrementPopularCount`, run while `popularMu` is held: load, add one to
the entry of `drink` (a missing entry reads as 0), save. -/
def incrementPopularCount (readFails : Bool) (w : WriteOutcome) (drink : String)
    (file : PopularFile) : Except StorageError Unit × PopularFile :=
  match loadPopularStats readFails file with
  | .error e => (.error e, file)
  | .ok counts =>
    savePopularStats w (counts.set drink (wrapInt64 ((counts.find drink).getD 0 + 1))) file

/-- The count stored for a drink, as a later load reads it. -/
def storedCount (file : PopularFile) (drink : String) : Option Int :=
  match loadPopularStats false file with
  | .ok counts => counts.find drink
  | .error _ => none

/-- The answers of the two popularity handlers. -/
inductive PopularResponse where
  | methodNotAllowed
  | failedToRead
  | ok (items : List popularItem)
deriving DecidableEq, Repr

/-- Go `handlePopular`. -/
def handlePopular (method : String) (readFails : Bool) (file : PopularFile) :
    PopularResponse :=
  if method ≠ "GET" then .methodNotAllowed
  else
    match loadPopularStats readFails file with
    | .error _ => .failedToRead
    | .ok counts =>
      .ok (sortSlice popularLess (collectItems counts))

/-- Go `adminHandlePopular`. -/
def adminHandlePopular (method : String) (readFails : Bool) (file : PopularFile) :
    PopularResponse :=
  if method ≠ "GET" then .methodNotAllowed
  else
    match loadPopularStats readFails file with
    | .error _ => .failedToRead
    | .ok counts =>
      .ok (sortSlice popularLess (collectItems counts))

/-! ## Library string functions used by the handlers -/

/-- Go `unicode.IsSpace`. -/
def isSpaceRune (c : Char) : Bool :=
  let n := c.toNat
  n == 0x09 || n == 0x0A || n == 0x0B || n == 0x0C || n == 0x0D || n == 0x20 ||
  n == 0x85 || n == 0xA0 || n == 0x1680 || (decide (0x2000 ≤ n) && decide (n ≤ 0x200A)) ||
  n == 0x2028 || n == 0x2029 || n == 0x202F || n == 0x205F || n == 0x3000

/-- Go `strings.TrimSpace` on the runes of a string. -/
def trimSpaceRunes (l : List Char) : List Char :=
  ((l.dropWhile isSpaceRune).reverse.dropWhile isSpaceRune).reverse

/-- Go `strings.TrimSpace`. -/
def trimSpace (s : String) : String := String.mk (trimSpaceRunes s.data)

/-- One rune pair in Go `strings.EqualFold`: equal runes match; otherwise the
smaller rune `sr` and the larger `tr` are compared, as an upper/lower ASCII
pair when `tr` is ASCII, and through the `unicode.SimpleFold` orbit otherwise.
The orbit table belongs to the Go library and comes in as `fold sr tr`. -/
def runeEqualFold (fold : Char → Char → Bool) (a b : Char) : Bool :=
  if a = b then true
  else
    let sr := if b.toNat < a.toNat then b else a
    let tr := if b.toNat < a.toNat then a else b
    if tr.toNat < 0x80 then
      decide ('A'.toNat ≤ sr.toNat) && decide (sr.toNat ≤ 'Z'.toNat) &&
        decide (tr.toNat = sr.toNat + 'a'.toNat - 'A'.toNat)
    else fold sr tr

/-- Go `strings.EqualFold` on the runes of the two strings. -/
def equalFoldRunes (fold : Char → Char → Bool) : List Char → List Char → Bool
  | [], [] => true
  | x :: xs, y :: ys => if runeEqualFold fold x y then equalFoldRunes fold xs ys else false
  | _, _ => false

/-- Go `strings.EqualFold`. -/
def equalFold (fold : Char → Char → Bool) (s t : String) : Bool :=
  equalFoldRunes fold s.data t.data

/-- The loop of Go `drinkOnMenu` over the menu returned by `getMenu`. -/
def drinkOnMenuLoop (fold : Char → Char → Bool) : List String → String → Bool
  | [], _ => false
  | item :: rest, drink =>
    if equalFold fold item drink then true else drinkOnMenuLoop fold rest drink

/-! ## Go strings as bytes

A Go string is a sequence of bytes.  The handlers only see text that the JSON
decoder returned, which is well-formed UTF-8 and is kept as a Lean string; file
names and the fields of an order handed to `writeOrderToSession` are kept as
bytes, so that names and values that are not UTF-8 have their place. -/

/-- A Go string: its bytes, each a number below 256. -/
abbrev GoString := List Nat

/-- The UTF-8 encoding of a rune. -/
def utf8Bytes (c : Char) : List Nat :=
  if c.toNat < 0x80 then [c.toNat]
  else if c.toNat < 0x800 then [0xC0 + c.toNat / 64, 0x80 + c.toNat % 64]
  else if c.toNat < 0x10000 then
    [0xE0 + c.toNat / 4096, 0x80 + c.toNat / 64 % 64, 0x80 + c.toNat % 64]
  else
    [0xF0 + c.toNat / 262144, 0x80 + c.toNat / 4096 % 64, 0x80 + c.toNat / 64 % 64,
      0x80 + c.toNat % 64]

/-- The UTF-8 encoding of a sequence of runes. -/
def encodeRunes : List Char → List Nat
  | [] => []
  | c :: cs => utf8Bytes c ++ encodeRunes cs

/-- The Go string holding a text. -/
def goString (s : String) : GoString := encodeRunes s.data

instance : Coe String GoString := ⟨goString⟩

/-- Go `utf8.RuneError`, U+FFFD. -/
def runeError : Char := Char.ofNat 0xFFFD

/-- A continuation byte, `0x80` to `0xBF`. -/
def isContinuation (b : Nat) : Bool := decide (0x80 ≤ b) && decide (b ≤ 0xBF)

/-- The least second byte Go `utf8` accepts after the first byte `b0`. -/
def secondByteLow (b0 : Nat) : Nat :=
  if b0 = 0xE0 then 0xA0 else if b0 = 0xF0 then 0x90 else 0x80

/-- The largest second byte Go `utf8` accepts after the first byte `b0`. -/
def secondByteHigh (b0 : Nat) : Nat :=
  if b0 = 0xED then 0x9F else if b0 = 0xF4 then 0x8F else 0xBF

/-- Go `utf8.DecodeRuneInString` on the bytes `b0 :: rest`: the rune and the
number of bytes it takes; a byte that does not start a well-formed encoding
gives U+FFFD and the width 1. -/
def decodeRune (b0 : Nat) (rest : List Nat) : Char × Nat :=
  if b0 < 0x80 then (Char.ofNat b0, 1)
  else if 0xC2 ≤ b0 ∧ b0 ≤ 0xDF then
    match rest with
    | b1 :: _ =>
      if isContinuation b1 then (Char.ofNat ((b0 - 0xC0) * 64 + (b1 - 0x80)), 2)
      else (runeError, 1)
    | _ => (runeError, 1)
  else if 0xE0 ≤ b0 ∧ b0 ≤ 0xEF then
    match rest with
    | b1 :: b2 :: _ =>
      if decide (secondByteLow b0 ≤ b1) && decide (b1 ≤ secondByteHigh b0) &&
          isContinuation b2 then
        (Char.ofNat ((b0 - 0xE0) * 4096 + (b1 - 0x80) * 64 + (b2 - 0x80)), 3)
      else (runeError, 1)
    | _ => (runeError, 1)
  else if 0xF0 ≤ b0 ∧ b0 ≤ 0xF4 then
    match rest with
    | b1 :: b2 :: b3 :: _ =>
      if decide (secondByteLow b0 ≤ b1) && decide (b1 ≤ secondByteHigh b0) &&
          isContinuation b2 && isContinuation b3 then
        (Char.ofNat ((b0 - 0xF0) * 262144 + (b1 - 0x80) * 4096 + (b2 - 0x80) * 64 +
          (b3 - 0x80)), 4)
      else (runeError, 1)
    | _ => (runeError, 1)
  else (runeError, 1)

/-- The runes of a Go string as `encoding/json` reads them when it writes a
string: rune after rune with `decodeRune`, `skip` being the bytes of the last
rune still to pass over. -/
def decodeFrom : Nat → List Nat → List Char
  | _, [] => []
  | skip + 1, _ :: rest => decodeFrom skip rest
  | 0, b0 :: rest => (decodeRune b0 rest).1 :: decodeFrom ((decodeRune b0 rest).2 - 1) rest

/-- The runes of a Go string, every byte that is not UTF-8 replaced by U+FFFD. -/
def decodeRunes (bytes : List Nat) : List Char := decodeFrom 0 bytes

/-- The text that `json.Marshal` writes for a Go string and `json.Unmarshal`
reads back: the string itself when it is UTF-8, with U+FFFD for every other byte. -/
def jsonText (g : GoString) : String := String.mk (decodeRunes g)

/-- A Go string that is well-formed UTF-8: the encoding of some text. -/
def IsUTF8 (g : GoString) : Prop := ∃ s : String, g = goString s

/-- Go `a < b` on strings, byte by byte. -/
def bytesLess : List Nat → List Nat → Bool
  | _, [] => false
  | [], _ :: _ => true
  | x :: xs, y :: ys =>
    if x < y then true
    else if y < x then false
    else bytesLess xs ys

/-- Go `strings.HasPrefix`. -/
def hasPrefixStr (s pre : GoString) : Bool := pre.isPrefixOf s

/-- Go `strings.HasSuffix`. -/
def hasSuffixStr (s suf : GoString) : Bool := suf.isSuffixOf s

/-! ## Orders and the file system -/

/-- An `Order` as the JSON decoder returns it and as `handleCreateOrder` builds
it: the strings are text, `Timestamp` is the instant in nanoseconds since the
Unix epoch. -/
structure Order where
  OrderID : String
  Drink : String
  CustomerName : String
  Instructions : String
  Timestamp : Int
deriving DecidableEq, Repr

/-- A Go `time.Time`: the instant in nanoseconds since the Unix epoch and the
offset of its zone from UTC in seconds. -/
structure GoTime where
  unixNanos : Int
  offsetSeconds : Int
deriving DecidableEq, Repr

/-- Go `Order`, any value of the struct: the strings are Go strings, the time
carries its zone. -/
structure GoOrder where
  OrderID : GoString
  Drink : GoString
  CustomerName : GoString
  Instructions : GoString
  Timestamp : GoTime
deriving DecidableEq, Repr

/-- The Go value of an order whose strings are text and whose time is in UTC. -/
def Order.toGo (o : Order) : GoOrder :=
  { OrderID := goString o.OrderID
    Drink := goString o.Drink
    CustomerName := goString o.CustomerName
    Instructions := goString o.Instructions
    Timestamp := { unixNanos := o.Timestamp, offsetSeconds := 0 } }

/-- Go `CreateOrderRequest`. -/
structure CreateOrderRequest where
  Drink : String
  CustomerName : String
  Instructions : String
deriving DecidableEq, Repr

/-- The content of the JSON text `json.MarshalIndent(order, "", "  ")` writes:
four strings and the RFC 3339 time, which is the local date and time of day
(as nanoseconds, counted as if it were UTC) with the zone as hours and minutes. -/
structure OrderJSON where
  orderId : String
  drink : String
  customerName : String
  instructions : String
  wallNanos : Int
  zoneMinutes : Int
deriving DecidableEq, Repr

/-- The zone of an RFC 3339 time: Go `offset / 60`, the seconds cut off. -/
def zoneMinutesOf (offsetSeconds : Int) : Int :=
  if offsetSeconds < 0 then -((-offsetSeconds) / 60) else offsetSeconds / 60

/-- Go `time.Time.MarshalJSON` (Go 1.20 and later) accepts a time whose local
year is 0 to 9999 and whose zone is less than 24 hours from UTC. -/
def timestampMarshals (t : GoTime) : Bool :=
  decide (-62167219200 * 1000000000 ≤ t.unixNanos + t.offsetSeconds * 1000000000) &&
  decide (t.unixNanos + t.offsetSeconds * 1000000000 < 253402300800 * 1000000000) &&
  decide (-1440 < zoneMinutesOf t.offsetSeconds) && decide (zoneMinutesOf t.offsetSeconds < 1440)

/-- Go `json.MarshalIndent(order, "", "  ")`. -/
def marshalOrder (order : GoOrder) : Except StorageError OrderJSON :=
  if !timestampMarshals order.Timestamp then .error .ioFailure
  else
    .ok
      { orderId := jsonText order.OrderID
        drink := jsonText order.Drink
        customerName := jsonText order.CustomerName
        instructions := jsonText order.Instructions
        wallNanos := order.Timestamp.unixNanos + order.Timestamp.offsetSeconds * 1000000000
        zoneMinutes := zoneMinutesOf order.Timestamp.offsetSeconds }

/-- Go `json.Unmarshal(data, &order)` on a JSON text with this content. -/
def unmarshalOrder (doc : OrderJSON) : Order :=
  { OrderID := doc.orderId
    Drink := doc.drink
    CustomerName := doc.customerName
    Instructions := doc.instructions
    Timestamp := doc.wallNanos - doc.zoneMinutes * 60 * 1000000000 }

/-- What `json.Unmarshal(data, &order)` makes of the bytes of a file. -/
inductive FileBody where
  /-- Bytes that decode to this order. -/
  | order (o : Order)
  /-- Bytes that `json.Unmarshal` rejects. -/
  | garbage
deriving DecidableEq, Repr

/-- An entry of the file system: a directory, or a file with its content;
`readable` is false when `os.ReadFile` fails on it. -/
inductive Node where
  | dir
  | file (readable : Bool) (body : FileBody)
deriving DecidableEq, Repr

/-- A cleaned relative path, as its components. -/
abbrev Path := List GoString

/-- The file system below the working directory: every existing path with its
node.  Names are byte strings and are compared byte by byte. -/
abbrev FS := List (Path × Node)

/-- The node at a path. -/
def FS.get : FS → Path → Option Node
  | [], _ => none
  | (q, n) :: rest, p => if q = p then some n else FS.get rest p

/-- Create or replace the node at a path. -/
def FS.put : FS → Path → Node → FS
  | [], p, n => [(p, n)]
  | (q, m) :: rest, p, n => if q = p then (p, n) :: rest else (q, m) :: FS.put rest p n

/-- The working directory and its ancestors always exist. -/
def isAncestorOfCwd (p : Path) : Bool := p.all (fun c => c == goString "..")

/-- Whether `os.Stat` finds a directory at the path. -/
def FS.isDir (fs : FS) (p : Path) : Bool :=
  if isAncestorOfCwd p then true
  else
    match fs.get p with
    | some .dir => true
    | _ => false

/-- The pieces of a path between its separators `/` (the byte 47). -/
def splitSlash : List Nat → List (List Nat)
  | [] => [[]]
  | c :: cs =>
    if c = 47 then [] :: splitSlash cs
    else
      match splitSlash cs with
      | [] => [[c]]
      | w :: ws => (c :: w) :: ws

/-- One component in Go `filepath.Clean`, on the stack of components kept so
far (innermost first): empty and `.` components vanish, `..` removes the
component before it, or stays when there is none to remove. -/
def cleanStep (stack : List GoString) (c : GoString) : List GoString :=
  if c = [] ∨ c = goString "." then stack
  else if c = goString ".." then
    match stack with
    | [] => [goString ".."]
    | top :: rest => if top = goString ".." then goString ".." :: top :: rest else rest
  else c :: stack

/-- Go `filepath.Join(base, elem)` for a cleaned relative `base`. -/
def joinPath (base : Path) (elem : GoString) : Path :=
  ((splitSlash elem).foldl cleanStep base.reverse).reverse

/-- Go `sessionsRoot`. -/
def sessionsRoot : String := "Sessions"

/-- Go `sessionFolderPath`. -/
def sessionFolderPath (sessionName : String) : Path :=
  joinPath (joinPath [] (goString sessionsRoot)) (goString sessionName)

/-- Go `os.MkdirAll` below the given start `pre`: an existing directory is kept, a
missing one is created, a file in the way is an error. -/
def mkdirAllFrom (fs : FS) (pre : Path) : List GoString → Except StorageError Unit × FS
  | [] => (.ok (), fs)
  | c :: cs =>
    if FS.isDir fs (pre ++ [c]) then mkdirAllFrom fs (pre ++ [c]) cs
    else
      match fs.get (pre ++ [c]) with
      | some _ => (.error .ioFailure, fs)
      | none => mkdirAllFrom (fs.put (pre ++ [c]) .dir) (pre ++ [c]) cs

/-- Go `os.MkdirAll`. -/
def mkdirAll (fs : FS) (p : Path) : Except StorageError Unit × FS :=
  mkdirAllFrom fs [] p

/-- Go `ensureSessionFolder`.  `fails` is a refusal by the operating system
(permissions, full disk). -/
def ensureSessionFolder (fails : Bool) (fs : FS) (sessionName : String) :
    Except StorageError Unit × FS :=
  if fails then (.error .ioFailure, fs)
  else
    match mkdirAll fs (joinPath [] (goString sessionsRoot)) with
    | (.error e, fs1) => (.error e, fs1)
    | (.ok _, fs1) => mkdirAll fs1 (sessionFolderPath sessionName)

/-- Go `os.WriteFile`: the target must not be a directory and its parent must
be one; an existing file keeps its permissions, a new one is readable. -/
def writeFile (fails : Bool) (fs : FS) (p : Path) (body : FileBody) :
    Except StorageError Unit × FS :=
  if fails then (.error .ioFailure, fs)
  else if FS.isDir fs p then (.error .ioFailure, fs)
  else if !FS.isDir fs p.dropLast then (.error .ioFailure, fs)
  else
    match fs.get p with
    | some (.file readable _) => (.ok (), fs.put p (.file readable body))
    | _ => (.ok (), fs.put p (.file true body))

/-- The file name `fmt.Sprintf("order-%s.json", order.OrderID)`. -/
def orderFileName (order : GoOrder) : GoString :=
  goString "order-" ++ order.OrderID ++ goString ".json"

/-- Go `writeOrderToSession`.  The file is shown by what a later
`json.Unmarshal` reads from the JSON text written. -/
def writeOrderToSession (mkdirFails writeFails : Bool) (fs : FS) (sessionName : String)
    (order : GoOrder) : Except StorageError Unit × FS :=
  match ensureSessionFolder mkdirFails fs sessionName with
  | (.error e, fs1) => (.error e, fs1)
  | (.ok _, fs1) =>
    match marshalOrder order with
    | .error e => (.error e, fs1)
    | .ok orderData =>
      let filename := orderFileName order
      writeFile writeFails fs1 (joinPath (sessionFolderPath sessionName) filename)
        (.order (unmarshalOrder orderData))

/-- The name of `q` inside the directory `p`, when `q` is a direct child of `p`. -/
def childName (p q : Path) : Option GoString :=
  if q.dropLast = p then q.getLast? else none

/-- The direct children of a directory, in storage order. -/
def FS.children (fs : FS) (p : Path) : List (GoString × Node) :=
  fs.filterMap (fun e => (childName p e.1).map (fun name => (name, e.2)))

/-- Go `os.ReadDir`: the entries of a directory sorted by file name. -/
def readDir (fails : Bool) (fs : FS) (p : Path) :
    Except StorageError (List (GoString × Node)) :=
  if fails then .error .ioFailure
  else if !FS.isDir fs p then .error .ioFailure
  else .ok (sortSlice (fun a b => bytesLess a.1 b.1) (fs.children p))

/-- The loop of Go `readOrdersFromSession` over the directory entries. -/
def readOrdersLoop (orders : List Order) : List (GoString × Node) → List Order
  | [] => orders
  | (name, node) :: rest =>
    match node with
    | .dir => readOrdersLoop orders rest
    | .file readable body =>
      if !hasPrefixStr name (goString "order-") || !hasSuffixStr name (goString ".json") then
        readOrdersLoop orders rest
      else if !readable then readOrdersLoop orders rest
      else
        match body with
        | .garbage => readOrdersLoop orders rest
        | .order o => readOrdersLoop (orders ++ [o]) rest

/-- Go `readOrdersFromSession`. -/
def readOrdersFromSession (readDirFails : Bool) (fs : FS) (sessionName : String) :
    Except StorageError (List Order) :=
  match readDir readDirFails fs (sessionFolderPath sessionName) with
  | .error e => .error e
  | .ok entries => .ok (readOrdersLoop [] entries)

/-- The specification's reading of one directory entry: it yields an order
exactly when it is a file, not a directory, named with the prefix `order-` and
the suffix `.json`, readable, and its content parses as an order. -/
def orderOfEntry (e : GoString × Node) : Option Order :=
  match e.2 with
  | .file true (.order o) =>
    if hasPrefixStr e.1 (goString "order-") && hasSuffixStr e.1 (goString ".json") then some o
    else none
  | _ => none

/-- Whether a directory entry is a file. -/
def isFileEntry (e : GoString × Node) : Bool :=
  match e.2 with
  | .dir => false
  | .file _ _ => true

/-- The order that `json.Unmarshal` reads from the JSON text of an order. -/
def storedOrder (o : GoOrder) : Order :=
  { OrderID := jsonText o.OrderID
    Drink := jsonText o.Drink
    CustomerName := jsonText o.CustomerName
    Instructions := jsonText o.Instructions
    Timestamp := o.Timestamp.unixNanos + o.Timestamp.offsetSeconds * 1000000000
      - zoneMinutesOf o.Timestamp.offsetSeconds * 60 * 1000000000 }

/-- The directory entry a successful `writeOrderToSession` creates for an order. -/
def orderEntry (o : GoOrder) : GoString × Node :=
  (orderFileName o, .file true (.order (storedOrder o)))

/-- The orders written one after the other with `writeOrderToSession`; the
first failing write ends the run.  `mkdirFails` and `writeFails` tell for which
orders the operating system refuses the directory or the file (permissions,
full disk, a name it does not accept). -/
def writeOrders (mkdirFails writeFails : GoOrder → Bool) (sessionName : String) :
    List GoOrder → FS → Except StorageError Unit × FS
  | [], fs => (.ok (), fs)
  | o :: rest, fs =>
    match writeOrderToSession (mkdirFails o) (writeFails o) fs sessionName o with
    | (.error e, fs1) => (.error e, fs1)
    | (.ok _, fs1) => writeOrders mkdirFails writeFails sessionName rest fs1

/-- The specification's round trip of one order: the order read back has the
identity, drink, customer name and instructions of the order written, and its
timestamp is the same instant. -/
def OrderMatches (read : Order) (written : GoOrder) : Prop :=
  goString read.OrderID = written.OrderID ∧
  goString read.Drink = written.Drink ∧
  goString read.CustomerName = written.CustomerName ∧
  goString read.Instructions = written.Instructions ∧
  read.Timestamp = written.Timestamp.unixNanos

/-! ## The server state and the handlers -/

/-- What a handler call takes from its surroundings: the menu `getMenu` reads,
the case-folding table of the Go library, the two clock readings of an order
submission, and the refusals of the operating system. -/
structure Env where
  menu : List String
  simpleFold : Char → Char → Bool
  idNanos : Int
  stampNanos : Int
  mkdirFails : Bool
  fileWriteFails : Bool
  readDirFails : Bool
  popularReadFails : Bool
  popularWrite : WriteOutcome

/-- The mutable state: the variable `selectedSession`, the files below the
working directory, and `popular.json`. -/
structure ServerState where
  selectedSession : String
  fs : FS
  popular : PopularFile
deriving DecidableEq, Repr

/-- Go `drinkOnMenu`. -/
def drinkOnMenu (env : Env) (drink : String) : Bool :=
  drinkOnMenuLoop env.simpleFold env.menu drink

/-- Go `generateOrderID`: the clock reading in decimal. -/
def generateOrderID (env : Env) : String := toString env.idNanos

/-- Go `getSelectedSession`. -/
def getSelectedSession (st : ServerState) : String := st.selectedSession

/-- Go `setSelectedSession`. -/
def setSelectedSession (st : ServerState) (name : String) : ServerState :=
  { st with selectedSession := name }

/-- The answers of `handleCreateOrder`. -/
inductive OrderResponse where
  | methodNotAllowed
  | noSessionSelected
  | invalidJSON
  | drinkRequired
  | customerNameRequired
  | drinkNotOnMenu
  | failedToSave
  | created (order : Order)
deriving DecidableEq, Repr

/-- The result of one `handleCreateOrder` call: the answer, whether
"failed to update popular stats" was logged, and the state left behind. -/
structure OrderOutcome where
  response : OrderResponse
  popularFailureLogged : Bool
  state : ServerState
deriving DecidableEq, Repr

/-- Go `handleCreateOrder`.  `body` is the decoded request body, `none` when
the JSON decoder rejects it. -/
def handleCreateOrder (env : Env) (method : String) (body : Option CreateOrderRequest)
    (st : ServerState) : OrderOutcome :=
  if method ≠ "POST" then ⟨.methodNotAllowed, false, st⟩
  else
    let sessionName := getSelectedSession st
    if sessionName = "" then ⟨.noSessionSelected, false, st⟩
    else
      match body with
      | none => ⟨.invalidJSON, false, st⟩
      | some req =>
        let drink := trimSpace req.Drink
        if drink = "" then ⟨.drinkRequired, false, st⟩
        else
          let customerName := trimSpace req.CustomerName
          if customerName = "" then ⟨.customerNameRequired, false, st⟩
          else if !drinkOnMenu env drink then ⟨.drinkNotOnMenu, false, st⟩
          else
            let order : Order :=
              { OrderID := generateOrderID env
                Drink := drink
                CustomerName := customerName
                Instructions := trimSpace req.Instructions
                Timestamp := env.stampNanos }
            match writeOrderToSession env.mkdirFails env.fileWriteFails st.fs sessionName
                order.toGo with
            | (.error _, fs1) => ⟨.failedToSave, false, { st with fs := fs1 }⟩
            | (.ok _, fs1) =>
              match incrementPopularCount env.popularReadFails env.popularWrite order.Drink
                  st.popular with
              | (.error _, pop1) =>
                ⟨.created order, true, { st with fs := fs1, popular := pop1 }⟩
              | (.ok _, pop1) =>
                ⟨.created order, false, { st with fs := fs1, popular := pop1 }⟩

/-- The answers of the session handlers. -/
inductive SessionResponse where
  | methodNotAllowed
  | invalidJSON
  | sessionNameRequired
  | invalidSessionName
  | failedToCreate
  | sessionDoesNotExist
  | ok (sessionName : String) (status : String)
deriving DecidableEq, Repr

/-- Go `handleCreateSession`.  `body` is the decoded `sessionName`, `none`
when the JSON decoder rejects the body. -/
def handleCreateSession (env : Env) (method : String) (body : Option String)
    (st : ServerState) : SessionResponse × ServerState :=
  if method ≠ "POST" then (.methodNotAllowed, st)
  else
    match body with
    | none => (.invalidJSON, st)
    | some raw =>
      let sessionName := trimSpace raw
      if sessionName = "" then (.sessionNameRequired, st)
      else if !isValidSessionName sessionName then (.invalidSessionName, st)
      else
        match ensureSessionFolder env.mkdirFails st.fs sessionName with
        | (.error _, fs1) => (.failedToCreate, { st with fs := fs1 })
        | (.ok _, fs1) =>
          (.ok sessionName "created", setSelectedSession { st with fs := fs1 } sessionName)

/-- Go `adminHandleCreateSession`. -/
def adminHandleCreateSession (env : Env) (method : String) (body : Option String)
    (st : ServerState) : SessionResponse × ServerState :=
  if method ≠ "POST" then (.methodNotAllowed, st)
  else
    match body with
    | none => (.invalidJSON, st)
    | some raw =>
      let sessionName := trimSpace raw
      if sessionName = "" then (.sessionNameRequired, st)
      else if !isValidSessionName sessionName then (.invalidSessionName, st)
      else
        match ensureSessionFolder env.mkdirFails st.fs sessionName with
        | (.error _, fs1) => (.failedToCreate, { st with fs := fs1 })
        | (.ok _, fs1) =>
          (.ok sessionName "created", setSelectedSession { st with fs := fs1 } sessionName)

/-- Go `handleSwitchSession`. -/
def handleSwitchSession (method : String) (body : Option String)
    (st : ServerState) : SessionResponse × ServerState :=
  if method ≠ "POST" then (.methodNotAllowed, st)
  else
    match body with
    | none => (.invalidJSON, st)
    | some raw =>
      let sessionName := trimSpace raw
      if sessionName = "" then (.sessionNameRequired, st)
      else if !isValidSessionName sessionName then (.invalidSessionName, st)
      else if !FS.isDir st.fs (sessionFolderPath sessionName) then (.sessionDoesNotExist, st)
      else (.ok sessionName "switched", setSelectedSession st sessionName)

/-- Go `adminHandleSwitchSession`. -/
def adminHandleSwitchSession (method : String) (body : Option String)
    (st : ServerState) : SessionResponse × ServerState :=
  if method ≠ "POST" then (.methodNotAllowed, st)
  else
    match body with
    | none => (.invalidJSON, st)
    | some raw =>
      let sessionName := trimSpace raw
      if sessionName = "" then (.sessionNameRequired, st)
      else if !isValidSessionName sessionName then (.invalidSessionName, st)
      else if !FS.isDir st.fs (sessionFolderPath sessionName) then (.sessionDoesNotExist, st)
      else (.ok sessionName "switched", setSelectedSession st sessionName)

/-- The answers of the order-listing handlers. -/
inductive OrdersResponse where
  | methodNotAllowed
  | noSessionSelected
  | failedToRead
  | ok (sessionName : String) (orders : List Order)
deriving DecidableEq, Repr

/-- Go `handleFetchOrders`. -/
def handleFetchOrders (env : Env) (method : String) (st : ServerState) : OrdersResponse :=
  if method ≠ "GET" then .methodNotAllowed
  else
    let sessionName := getSelectedSession st
    if sessionName = "" then .noSessionSelected
    else
      match readOrdersFromSession env.readDirFails st.fs sessionName with
      | .error _ => .failedToRead
      | .ok orders => .ok sessionName orders

/-- Go `adminHandleOrders`.  `query` is the value of the URL parameter
`sessionName`, empty when the parameter is absent. -/
def adminHandleOrders (env : Env) (method : String) (query : String) (st : ServerState) :
    OrdersResponse :=
  if method ≠ "GET" then .methodNotAllowed
  else
    let sessionName := trimSpace query
    let sessionName := if sessionName = "" then getSelectedSession st else sessionName
    if sessionName = "" then .noSessionSelected
    else
      match readOrdersFromSession env.readDirFails st.fs sessionName with
      | .error _ => .failedToRead
      | .ok orders => .ok sessionName orders

/-- A sequence of order submissions: each call takes its own surroundings,
method and body; the outcomes are returned in order with the final state. -/
def submitOrders :
    List (Env × String × Option CreateOrderRequest) → ServerState →
      List OrderOutcome × ServerState
  | [], st => ([], st)
  | (env, method, body) :: rest, st =>
    let out := handleCreateOrder env method body st
    let r := submitOrders rest out.state
    (out :: r.1, r.2)

/-! ## Sample data -/

/-- A harmless environment: menu Latte and Mocha, no refusal. -/
def sampleEnv : Env :=
  { menu := ["Latte", "Mocha"]
    simpleFold := fun _ _ => false
    idNanos := 1700000000000000001
    stampNanos := 1700000000000000002
    mkdirFails := false
    fileWriteFails := false
    readDirFails := false
    popularReadFails := false
    popularWrite := .ok }

/-- Two sample orders with the identities 1 and 2. -/
def sampleOrders : List GoOrder :=
  [⟨goString "1", goString "Latte", goString "Ann", goString "", ⟨1700000000000000002, 0⟩⟩,
   ⟨goString "2", goString "Café", goString "Bob", goString "extra hot",
     ⟨1700000000000000003, 3600⟩⟩]

/-- Whether an outcome is a stored order for the drink. -/
def createdFor (drink : String) (out : OrderOutcome) : Bool :=
  match out.response with
  | .created order => decide (order.Drink = drink)
  | _ => false

/-- The number of submissions that answered with a stored order for this drink. -/
def appendedCount (drink : String) (outs : List OrderOutcome) : Nat :=
  outs.countP (createdFor drink)

/-- A file system in which the session `s1` holds the order file that a
submission with the clock readings of `sampleEnv` writes. -/
def sampleStore : FS :=
  [(["Sessions"], .dir), (["Sessions", "s1"], .dir),
   (["Sessions", "s1", "order-1700000000000000001.json"],
     .file true (.order ⟨"1700000000000000001", "Latte", "Ann", "", 1700000000000000002⟩))]

/-- A well-formed submission of a Latte for Ann. -/
def sampleStep : Env × String × Option CreateOrderRequest :=
  (sampleEnv, "POST", some ⟨"Latte", "Ann", ""⟩)

/-- A file system with a directory `x` beside `Sessions`, holding one order file. -/
def outsideStore : FS :=
  [(["Sessions"], .dir), (["x"], .dir),
   (["x", "order-7.json"], .file true (.order ⟨"7", "Mocha", "Eve", "", 1700000000000000009⟩))]

/-- The selected session is either none or a valid session name. -/
def SelectedValid (st : ServerState) : Prop :=
  st.selectedSession = "" ∨ isValidSessionName st.selectedSession = true

/-- The specification's case-insensitive equality of two runes: they are the
same rune, or both are ASCII and agree after lower-casing the letters A to Z,
or one of them is not ASCII and the Unicode folding table relates the smaller
rune to the larger one. -/
def FoldEqual (fold : Char → Char → Bool) (a b : Char) : Prop :=
  a = b ∨
  (a.toNat < 128 ∧ b.toNat < 128 ∧ a.toLower = b.toLower) ∨
  ((128 ≤ a.toNat ∨ 128 ≤ b.toNat) ∧
    fold (if b.toNat < a.toNat then b else a) (if b.toNat < a.toNat then a else b) = true)

/-! ## Properties of the string order -/

theorem char_eq_of_toNat_eq {x y : Char} (h : x.toNat = y.toNat) : x = y := by
  have h2 := congrArg Char.ofNat h
  simpa [Char.ofNat_toNat] using h2

theorem runesLess_irrefl (a : List Char) : runesLess a a = false := by
  induction a with
  | nil => rfl
  | cons x xs ih => simp [runesLess, ih]

theorem runesLess_trichotomy (a b : List Char) :
    runesLess a b = true ∨ a = b ∨ runesLess b a = true := by
  induction a generalizing b with
  | nil => cases b <;> simp [runesLess]
  | cons x xs ih =>
    cases b with
    | nil => simp [runesLess]
    | cons y ys =>
      simp only [runesLess]
      rcases Nat.lt_trichotomy x.toNat y.toNat with h | h | h
      · simp [h]
      · have hxy : x = y := char_eq_of_toNat_eq h
        subst hxy
        simpa using ih ys
      · right; right
        simp [h]

theorem runesLess_trans (a b c : List Char)
    (h1 : runesLess a b = true) (h2 : runesLess b c = true) : runesLess a c = true := by
  induction a generalizing b c with
  | nil =>
    cases c with
    | nil => cases b <;> simp [runesLess] at h2
    | cons z zs => simp [runesLess]
  | cons x xs ih =>
    cases b with
    | nil => simp [runesLess] at h1
    | cons y ys =>
      cases c with
      | nil => simp [runesLess] at h2
      | cons z zs =>
        simp only [runesLess] at h1 h2 ⊢
        split_ifs at h1 h2 ⊢ <;> first | rfl | omega | exact ih _ _ h1 h2

theorem stringLess_irrefl (a : String) : stringLess a a = false :=
  runesLess_irrefl a.data

theorem stringLess_trans {a b c : String}
    (h1 : stringLess a b = true) (h2 : stringLess b c = true) : stringLess a c = true :=
  runesLess_trans _ _ _ h1 h2

theorem stringLess_trichotomy (a b : String) :
    stringLess a b = true ∨ a = b ∨ stringLess b a = true := by
  rcases runesLess_trichotomy a.data b.data with h | h | h
  · exact Or.inl h
  · exact Or.inr (Or.inl (String.ext h))
  · exact Or.inr (Or.inr h)

theorem stringLess_asymm {a b : String} (h : stringLess a b = true) :
    stringLess b a = false := by
  cases hba : stringLess b a with
  | false => rfl
  | true =>
    have h3 := stringLess_trans h hba
    rw [stringLess_irrefl] at h3
    exact absurd h3 (by decide)

/-! ## Properties of the sort -/

theorem insertByLess_perm {α : Type} (less : α → α → Bool) (x : α) (l : List α) :
    (insertByLess less x l).Perm (x :: l) := by
  induction l with
  | nil => exact List.Perm.refl _
  | cons y ys ih =>
    unfold insertByLess
    split
    · exact List.Perm.refl _
    · exact (List.Perm.cons y ih).trans (List.Perm.swap x y ys)

theorem sortSlice_perm {α : Type} (less : α → α → Bool) (l : List α) :
    (sortSlice less l).Perm l := by
  induction l with
  | nil => exact List.Perm.refl _
  | cons x xs ih =>
    exact (insertByLess_perm less x (sortSlice less xs)).trans (List.Perm.cons x ih)

theorem insertByLess_pairwise {α : Type} (less : α → α → Bool)
    (hasym : ∀ a b, less a b = true → less b a = false)
    (htrans : ∀ a b c, less b a = false → less c b = false → less c a = false)
    (x : α) (l : List α) (hl : l.Pairwise (fun a b => less b a = false)) :
    (insertByLess less x l).Pairwise (fun a b => less b a = false) := by
  induction l with
  | nil => simp [insertByLess]
  | cons y ys ih =>
    rw [List.pairwise_cons] at hl
    unfold insertByLess
    split
    · rename_i hxy
      refine List.pairwise_cons.2 ⟨?_, List.pairwise_cons.2 hl⟩
      intro z hz
      rcases List.mem_cons.1 hz with hz | hz
      · subst hz; exact hasym _ _ hxy
      · exact htrans _ _ _ (hasym _ _ hxy) (hl.1 z hz)
    · rename_i hxy
      refine List.pairwise_cons.2 ⟨?_, ih hl.2⟩
      intro z hz
      rcases List.mem_cons.1 ((insertByLess_perm less x ys).mem_iff.1 hz) with hz | hz
      · subst hz; simpa using hxy
      · exact hl.1 z hz

theorem sortSlice_pairwise {α : Type} (less : α → α → Bool)
    (hasym : ∀ a b, less a b = true → less b a = false)
    (htrans : ∀ a b c, less b a = false → less c b = false → less c a = false)
    (l : List α) : (sortSlice less l).Pairwise (fun a b => less b a = false) := by
  induction l with
  | nil => simp [sortSlice]
  | cons x xs ih => exact insertByLess_pairwise less hasym htrans x _ ih

/-! ## The order of the popularity items -/

theorem popularLess_iff (a b : popularItem) :
    popularLess a b = true ↔ PopularBefore a b := by
  unfold popularLess PopularBefore
  by_cases h : a.Count = b.Count
  · simp [h]
  · simp [h]

theorem popularLess_asymm (a b : popularItem) (h : popularLess a b = true) :
    popularLess b a = false := by
  rw [popularLess_iff] at h
  cases hba : popularLess b a with
  | false => rfl
  | true =>
    rw [popularLess_iff] at hba
    exfalso
    rcases h with h | ⟨h1, h2⟩ <;> rcases hba with g | ⟨g1, g2⟩
    · omega
    · omega
    · omega
    · rw [stringLess_asymm h2] at g2
      exact absurd g2 (by decide)

theorem popularLess_false_iff (a b : popularItem) :
    popularLess b a = false ↔
      a.Count > b.Count ∨ (a.Count = b.Count ∧ stringLess b.Drink a.Drink = false) := by
  unfold popularLess
  by_cases h : b.Count = a.Count
  · simp [h]
  · simp [h]
    omega

theorem stringLess_false_trans {a b c : String}
    (h1 : stringLess b a = false) (h2 : stringLess c b = false) :
    stringLess c a = false := by
  cases hca : stringLess c a with
  | false => rfl
  | true =>
    exfalso
    rcases stringLess_trichotomy a b with h | h | h
    · have h3 := stringLess_trans hca h
      rw [h2] at h3
      exact absurd h3 (by decide)
    · subst h
      rw [h2] at hca
      exact absurd hca (by decide)
    · rw [h1] at h
      exact absurd h (by decide)

theorem popularLess_false_trans (a b c : popularItem)
    (h1 : popularLess b a = false) (h2 : popularLess c b = false) :
    popularLess c a = false := by
  rw [popularLess_false_iff] at h1 h2 ⊢
  rcases h1 with h1 | ⟨h1, h1s⟩ <;> rcases h2 with h2 | ⟨h2, h2s⟩
  · left; omega
  · left; omega
  · left; omega
  · right
    exact ⟨by omega, stringLess_false_trans h1s h2s⟩

theorem popularBefore_of_not_less (a b : popularItem) (hne : a.Drink ≠ b.Drink)
    (h : popularLess b a = false) : PopularBefore a b := by
  rw [popularLess_false_iff] at h
  rcases h with h | ⟨h1, h2⟩
  · exact Or.inl h
  · right
    refine ⟨h1, ?_⟩
    rcases stringLess_trichotomy a.Drink b.Drink with g | g | g
    · exact g
    · exact absurd g hne
    · rw [h2] at g
      exact absurd g (by decide)

theorem popularBefore_antisymm (a b : popularItem)
    (h1 : PopularBefore a b) (h2 : PopularBefore b a) : a = b := by
  rw [← popularLess_iff] at h1 h2
  rw [popularLess_asymm a b h1] at h2
  exact absurd h2 (by decide)

theorem collectItems_drinks (m : Counts) :
    (collectItems m).map popularItem.Drink = m.map Prod.fst := by
  simp [collectItems, List.map_map, Function.comp_def]

theorem popularSnapshot_perm (m : Counts) :
    (popularSnapshot m).Perm (collectItems m) :=
  sortSlice_perm popularLess (collectItems m)

theorem popularSnapshot_pairwise (m : Counts) (h : m.WF) :
    (popularSnapshot m).Pairwise PopularBefore := by
  have hsorted := sortSlice_pairwise popularLess popularLess_asymm
    popularLess_false_trans (collectItems m)
  have hnodup : ((popularSnapshot m).map popularItem.Drink).Nodup := by
    have hp := (popularSnapshot_perm m).map popularItem.Drink
    rw [collectItems_drinks] at hp
    exact hp.nodup_iff.2 h
  have hne : (popularSnapshot m).Pairwise (fun a b => a.Drink ≠ b.Drink) :=
    List.pairwise_map.1 hnodup
  exact (hsorted.and hne).imp (fun h => popularBefore_of_not_less _ _ h.2 h.1)

/-- Any list holding the same items in the required order is the snapshot:
the result does not depend on the sorting algorithm nor on the order in which
the map was visited. -/
theorem popularSnapshot_unique (m : Counts) (h : m.WF) (l : List popularItem)
    (hp : l.Perm (collectItems m)) (hs : l.Pairwise PopularBefore) :
    popularSnapshot m = l := by
  haveI : IsAntisymm popularItem PopularBefore := ⟨popularBefore_antisymm⟩
  exact List.eq_of_perm_of_sorted ((popularSnapshot_perm m).trans hp.symm)
    (popularSnapshot_pairwise m h) hs

/-! ## Session names -/

theorem isValidSessionRune_iff (c : Char) :
    isValidSessionRune c = true ↔ InSessionClass c := by
  unfold isValidSessionRune InSessionClass Char.isAlphanum Char.isAlpha Char.isUpper
    Char.isLower Char.isDigit
  simp only [Bool.or_eq_true, Bool.and_eq_true, decide_eq_true_eq, beq_iff_eq, Char.le_def,
    ge_iff_le]
  constructor
  · rintro ((((h | h) | h) | h) | h)
    · exact Or.inl (Or.inl (Or.inr h))
    · exact Or.inl (Or.inl (Or.inl h))
    · exact Or.inl (Or.inr h)
    · exact Or.inr (Or.inr h)
    · exact Or.inr (Or.inl h)
  · rintro (((h | h) | h) | h | h)
    · exact Or.inl (Or.inl (Or.inl (Or.inr h)))
    · exact Or.inl (Or.inl (Or.inl (Or.inl h)))
    · exact Or.inl (Or.inl (Or.inr h))
    · exact Or.inr h
    · exact Or.inl (Or.inr h)

theorem isValidSessionNameLoop_iff (l : List Char) :
    isValidSessionNameLoop l = true ↔ ∀ c ∈ l, InSessionClass c := by
  induction l with
  | nil => simp [isValidSessionNameLoop]
  | cons x xs ih =>
    unfold isValidSessionNameLoop
    by_cases hx : isValidSessionRune x = true
    · simp [hx, ih, (isValidSessionRune_iff x).1 hx]
    · have hx2 : ¬ InSessionClass x := fun h => hx ((isValidSessionRune_iff x).2 h)
      simp [hx, hx2]

/-! ## The popularity map -/

theorem Counts.find_set_self (m : Counts) (k : String) (v : Int) :
    (m.set k v).find k = some v := by
  induction m with
  | nil => simp [Counts.set, Counts.find]
  | cons e rest ih =>
    obtain ⟨k1, v1⟩ := e
    by_cases h : k1 = k
    · simp [Counts.set, Counts.find, h]
    · simp [Counts.set, Counts.find, h, ih]

theorem Counts.find_set_other (m : Counts) (k e : String) (v : Int) (h : e ≠ k) :
    (m.set k v).find e = m.find e := by
  induction m with
  | nil => simp [Counts.set, Counts.find, Ne.symm h]
  | cons a rest ih =>
    obtain ⟨k1, v1⟩ := a
    by_cases h1 : k1 = k
    · subst h1
      simp [Counts.set, Counts.find, Ne.symm h]
    · by_cases h2 : k1 = e
      · subst h2
        simp [Counts.set, Counts.find, h]
      · simp [Counts.set, Counts.find, h1, h2, ih]

theorem wrapInt64_of_range (x : Int) (h1 : -2 ^ 63 ≤ x) (h2 : x < 2 ^ 63) :
    wrapInt64 x = x := by
  unfold wrapInt64
  omega

/-- The stored counts after a successful increment, in terms of the stored
counts before it. -/
theorem storedCount_increment (readFails : Bool) (w : WriteOutcome) (d : String)
    (file : PopularFile)
    (hok : (incrementPopularCount readFails w d file).1 = .ok ()) (e : String) :
    storedCount (incrementPopularCount readFails w d file).2 e =
      if e = d then some (wrapInt64 ((storedCount file d).getD 0 + 1))
      else storedCount file e := by
  cases readFails with
  | true => simp [incrementPopularCount, loadPopularStats] at hok
  | false =>
    cases w with
    | openFails =>
      revert hok
      simp only [incrementPopularCount]
      split <;> simp [savePopularStats]
    | writeFails =>
      revert hok
      simp only [incrementPopularCount]
      split <;> simp [savePopularStats]
    | ok =>
      unfold incrementPopularCount storedCount
      cases h : loadPopularStats false file with
      | error err =>
        exfalso
        revert h
        unfold loadPopularStats
        simp only [Bool.false_eq_true, if_false]
        split <;> simp
      | ok counts =>
        simp only [savePopularStats, loadPopularStats, Bool.false_eq_true, if_false]
        by_cases hed : e = d
        · subst hed
          simp [Counts.find_set_self]
        · simp [hed, Counts.find_set_other _ _ _ _ hed]

/-! ## The menu check -/

theorem toNat_ofNat_valid (n : Nat) (h : n < 0xD800 ∨ (0xDFFF < n ∧ n < 0x110000)) :
    (Char.ofNat n).toNat = n := by
  have hv : n.isValidChar := h
  unfold Char.ofNat
  rw [dif_pos hv]
  simp [Char.toNat, Char.ofNatAux, UInt32.toNat]

theorem toLower_toNat (c : Char) :
    c.toLower.toNat = if 65 ≤ c.toNat ∧ c.toNat ≤ 90 then c.toNat + 32 else c.toNat := by
  unfold Char.toLower
  simp only [ge_iff_le]
  split
  · exact toNat_ofNat_valid _ (by omega)
  · rfl

theorem toLower_eq_iff (a b : Char) :
    a.toLower = b.toLower ↔
      (if 65 ≤ a.toNat ∧ a.toNat ≤ 90 then a.toNat + 32 else a.toNat) =
      (if 65 ≤ b.toNat ∧ b.toNat ≤ 90 then b.toNat + 32 else b.toNat) := by
  rw [← toLower_toNat, ← toLower_toNat]
  exact ⟨fun h => congrArg Char.toNat h, char_eq_of_toNat_eq⟩

theorem runeEqualFold_iff (fold : Char → Char → Bool) (a b : Char) :
    runeEqualFold fold a b = true ↔ FoldEqual fold a b := by
  unfold runeEqualFold FoldEqual
  by_cases hab : a = b
  · simp [hab]
  · have hne : a.toNat ≠ b.toNat := fun h => hab (char_eq_of_toNat_eq h)
    have hA : 'A'.toNat = 65 := by decide
    have hZ : 'Z'.toNat = 90 := by decide
    have ha : 'a'.toNat = 97 := by decide
    simp only [hab, if_false, false_or, hA, hZ, ha, toLower_eq_iff]
    by_cases hlt : b.toNat < a.toNat
    · simp only [hlt, if_true]
      by_cases h128 : a.toNat < 128
      · simp only [h128, if_true, Bool.and_eq_true, decide_eq_true_eq]
        constructor
        · intro h
          left
          refine ⟨trivial, by omega, ?_⟩
          split_ifs <;> omega
        · rintro (⟨-, hb, h⟩ | ⟨h, -⟩)
          · split_ifs at h <;> omega
          · omega
      · simp only [h128, if_false]
        constructor
        · intro h
          exact Or.inr ⟨by omega, h⟩
        · rintro (⟨h, -⟩ | ⟨-, h⟩)
          · exact h.elim
          · exact h
    · simp only [hlt, if_false]
      by_cases h128 : b.toNat < 128
      · simp only [h128, if_true, Bool.and_eq_true, decide_eq_true_eq]
        constructor
        · intro h
          left
          refine ⟨by omega, trivial, ?_⟩
          split_ifs <;> omega
        · rintro (⟨-, -, h⟩ | ⟨h, -⟩)
          · split_ifs at h <;> omega
          · omega
      · simp only [h128, if_false]
        constructor
        · intro h
          exact Or.inr ⟨by omega, h⟩
        · rintro (⟨-, h, -⟩ | ⟨-, h⟩)
          · exact h.elim
          · exact h

theorem equalFoldRunes_iff (fold : Char → Char → Bool) (xs ys : List Char) :
    equalFoldRunes fold xs ys = true ↔ List.Forall₂ (FoldEqual fold) xs ys := by
  induction xs generalizing ys with
  | nil =>
    cases ys with
    | nil => simp [equalFoldRunes]
    | cons y ys => simp [equalFoldRunes]
  | cons x xs ih =>
    cases ys with
    | nil => simp [equalFoldRunes]
    | cons y ys =>
      simp only [equalFoldRunes, List.forall₂_cons]
      by_cases h : runeEqualFold fold x y = true
      · simp [h, (runeEqualFold_iff fold x y).1 h, ih]
      · have h2 : ¬ FoldEqual fold x y := fun g => h ((runeEqualFold_iff fold x y).2 g)
        simp [h, h2]

theorem foldEqual_ascii (fold : Char → Char → Bool) (a b : Char)
    (ha : a.toNat < 128) (hb : b.toNat < 128) :
    FoldEqual fold a b ↔ a.toLower = b.toLower := by
  unfold FoldEqual
  constructor
  · rintro (h | ⟨-, -, h⟩ | ⟨h, -⟩)
    · rw [h]
    · exact h
    · omega
  · intro h
    exact Or.inr (Or.inl ⟨ha, hb, h⟩)

theorem forall₂_foldEqual_ascii (fold : Char → Char → Bool) (xs ys : List Char)
    (hx : ∀ c ∈ xs, c.toNat < 128) (hy : ∀ c ∈ ys, c.toNat < 128) :
    List.Forall₂ (FoldEqual fold) xs ys ↔ xs.map Char.toLower = ys.map Char.toLower := by
  induction xs generalizing ys with
  | nil =>
    cases ys with
    | nil => simp
    | cons y ys => simp
  | cons x xs ih =>
    cases ys with
    | nil => simp
    | cons y ys =>
      simp only [List.forall₂_cons, List.map_cons, List.cons.injEq]
      rw [foldEqual_ascii fold x y (hx x (List.mem_cons_self _ _)) (hy y (List.mem_cons_self _ _)),
        ih ys (fun c hc => hx c (List.mem_cons_of_mem _ hc))
          (fun c hc => hy c (List.mem_cons_of_mem _ hc))]

theorem drinkOnMenuLoop_iff (fold : Char → Char → Bool) (menu : List String) (d : String) :
    drinkOnMenuLoop fold menu d = true ↔
      ∃ item ∈ menu, List.Forall₂ (FoldEqual fold) item.data d.data := by
  induction menu with
  | nil => simp [drinkOnMenuLoop]
  | cons item rest ih =>
    unfold drinkOnMenuLoop
    by_cases h : equalFold fold item d = true
    · have h2 := (equalFoldRunes_iff fold item.data d.data).1 h
      simp [h, h2]
    · have h2 : ¬ List.Forall₂ (FoldEqual fold) item.data d.data :=
        fun g => h ((equalFoldRunes_iff fold item.data d.data).2 g)
      simp [h, h2, ih]

/-! ## Reading a session -/

theorem readOrdersLoop_eq (acc : List Order) (entries : List (GoString × Node)) :
    readOrdersLoop acc entries = acc ++ entries.filterMap orderOfEntry := by
  induction entries generalizing acc with
  | nil => simp [readOrdersLoop]
  | cons e rest ih =>
    obtain ⟨name, node⟩ := e
    cases node with
    | dir => simp [readOrdersLoop, ih, orderOfEntry, List.filterMap_cons]
    | file readable body =>
      cases readable <;> cases body <;>
        by_cases h1 : hasPrefixStr name (goString "order-") = true <;>
        by_cases h2 : hasSuffixStr name (goString ".json") = true <;>
        simp [readOrdersLoop, ih, orderOfEntry, List.filterMap_cons, h1, h2]

/-! ## Paths and the file system -/

theorem char_valid (c : Char) :
    c.toNat < 0xD800 ∨ (0xDFFF < c.toNat ∧ c.toNat < 0x110000) := c.valid

theorem decodeRune_utf8Bytes (c : Char) (rest : List Nat) :
    ∃ b0 tail, utf8Bytes c = b0 :: tail ∧
      decodeRune b0 (tail ++ rest) = (c, tail.length + 1) := by
  have hv := char_valid c
  unfold utf8Bytes
  by_cases h1 : c.toNat < 0x80
  · refine ⟨c.toNat, [], by simp [h1], ?_⟩
    simp [decodeRune, h1]
  · by_cases h2 : c.toNat < 0x800
    · refine ⟨_, _, by simp only [h1, h2, if_true, if_false]; rfl, ?_⟩
      have e1 : ¬ (0xC0 + c.toNat / 64 < 0x80) := by omega
      have e2 : 0xC2 ≤ 0xC0 + c.toNat / 64 ∧ 0xC0 + c.toNat / 64 ≤ 0xDF := by omega
      have e3 : isContinuation (0x80 + c.toNat % 64) = true := by
        simp [isContinuation]; omega
      have e4 : (0xC0 + c.toNat / 64 - 0xC0) * 64 + (0x80 + c.toNat % 64 - 0x80) = c.toNat := by
        omega
      simp only [decodeRune, e1, e2, e3, e4, if_true, if_false, and_self, Char.ofNat_toNat,
        List.cons_append, List.nil_append, List.length_cons, List.length_nil]
    · by_cases h3 : c.toNat < 0x10000
      · refine ⟨_, _, by simp only [h1, h2, h3, if_true, if_false]; rfl, ?_⟩
        have e1 : ¬ (0xE0 + c.toNat / 4096 < 0x80) := by omega
        have e2 : ¬ (0xC2 ≤ 0xE0 + c.toNat / 4096 ∧ 0xE0 + c.toNat / 4096 ≤ 0xDF) := by omega
        have e3 : 0xE0 ≤ 0xE0 + c.toNat / 4096 ∧ 0xE0 + c.toNat / 4096 ≤ 0xEF := by omega
        have e4 : (decide (secondByteLow (0xE0 + c.toNat / 4096) ≤ 0x80 + c.toNat / 64 % 64) &&
            decide (0x80 + c.toNat / 64 % 64 ≤ secondByteHigh (0xE0 + c.toNat / 4096)) &&
            isContinuation (0x80 + c.toNat % 64)) = true := by
          simp only [secondByteLow, secondByteHigh, isContinuation, Bool.and_eq_true,
            decide_eq_true_eq]
          refine ⟨⟨?_, ?_⟩, ?_, ?_⟩
          · split_ifs <;> omega
          · split_ifs <;> omega
          · omega
          · omega
        have e5 : (0xE0 + c.toNat / 4096 - 0xE0) * 4096 + (0x80 + c.toNat / 64 % 64 - 0x80) * 64
            + (0x80 + c.toNat % 64 - 0x80) = c.toNat := by omega
        simp only [decodeRune, e1, e2, e3, e4, e5, if_true, if_false, and_self,
          Char.ofNat_toNat, List.cons_append, List.nil_append, List.length_cons,
          List.length_nil]
      · refine ⟨_, _, by simp only [h1, h2, h3, if_true, if_false]; rfl, ?_⟩
        have e1 : ¬ (0xF0 + c.toNat / 262144 < 0x80) := by omega
        have e2 : ¬ (0xC2 ≤ 0xF0 + c.toNat / 262144 ∧ 0xF0 + c.toNat / 262144 ≤ 0xDF) := by
          omega
        have e3 : ¬ (0xE0 ≤ 0xF0 + c.toNat / 262144 ∧ 0xF0 + c.toNat / 262144 ≤ 0xEF) := by
          omega
        have e3b : 0xF0 ≤ 0xF0 + c.toNat / 262144 ∧ 0xF0 + c.toNat / 262144 ≤ 0xF4 := by omega
        have e4 : (decide (secondByteLow (0xF0 + c.toNat / 262144) ≤ 0x80 + c.toNat / 4096 % 64)
            && decide (0x80 + c.toNat / 4096 % 64 ≤ secondByteHigh (0xF0 + c.toNat / 262144))
            && isContinuation (0x80 + c.toNat / 64 % 64)
            && isContinuation (0x80 + c.toNat % 64)) = true := by
          simp only [secondByteLow, secondByteHigh, isContinuation, Bool.and_eq_true,
            decide_eq_true_eq]
          refine ⟨⟨⟨?_, ?_⟩, ?_, ?_⟩, ?_, ?_⟩
          · split_ifs <;> omega
          · split_ifs <;> omega
          · omega
          · omega
          · omega
          · omega
        have e5 : (0xF0 + c.toNat / 262144 - 0xF0) * 262144
            + (0x80 + c.toNat / 4096 % 64 - 0x80) * 4096
            + (0x80 + c.toNat / 64 % 64 - 0x80) * 64
            + (0x80 + c.toNat % 64 - 0x80) = c.toNat := by omega
        simp only [decodeRune, e1, e2, e3, e3b, e4, e5, if_true, if_false, and_self,
          Char.ofNat_toNat, List.cons_append, List.nil_append, List.length_cons,
          List.length_nil]

theorem decodeFrom_skip (tail rest : List Nat) :
    decodeFrom tail.length (tail ++ rest) = decodeFrom 0 rest := by
  induction tail with
  | nil => rfl
  | cons b bs ih => simpa [decodeFrom] using ih

theorem decodeRunes_utf8Bytes (c : Char) (rest : List Nat) :
    decodeRunes (utf8Bytes c ++ rest) = c :: decodeRunes rest := by
  obtain ⟨b0, tail, hb, hd⟩ := decodeRune_utf8Bytes c rest
  unfold decodeRunes
  rw [hb, List.cons_append, decodeFrom, hd]
  simp only [Nat.add_sub_cancel]
  rw [decodeFrom_skip]

theorem decodeRunes_encodeRunes (l : List Char) : decodeRunes (encodeRunes l) = l := by
  induction l with
  | nil => rfl
  | cons c cs ih => rw [encodeRunes, decodeRunes_utf8Bytes, ih]

/-- Text survives the JSON encoding of a string unchanged. -/
theorem jsonText_goString (s : String) : jsonText (goString s) = s := by
  unfold jsonText goString
  rw [decodeRunes_encodeRunes]

theorem goString_jsonText_of_utf8 (g : GoString) (h : IsUTF8 g) :
    goString (jsonText g) = g := by
  obtain ⟨s, hs⟩ := h
  rw [hs, jsonText_goString]

theorem splitSlash_of_no_slash (l : List Nat) (h : 47 ∉ l) : splitSlash l = [l] := by
  induction l with
  | nil => rfl
  | cons c cs ih =>
    have hc : c ≠ 47 := fun e => h (by simp [e])
    have hcs : 47 ∉ cs := fun e => h (List.mem_cons_of_mem _ e)
    simp [splitSlash, hc, ih hcs]

theorem joinPath_single (base : Path) (f : GoString) (hs : 47 ∉ f)
    (h0 : f ≠ []) (h1 : f ≠ goString ".") (h2 : f ≠ goString "..") :
    joinPath base f = base ++ [f] := by
  unfold joinPath
  rw [splitSlash_of_no_slash _ hs]
  simp [cleanStep, h0, h1, h2]

theorem goString_order : goString "order-" = [111, 114, 100, 101, 114, 45] := by decide

theorem goString_json : goString ".json" = [46, 106, 115, 111, 110] := by decide

theorem orderFileName_injective (a b : GoOrder) (h : orderFileName a = orderFileName b) :
    a.OrderID = b.OrderID := by
  unfold orderFileName at h
  rw [List.append_assoc, List.append_assoc] at h
  exact List.append_cancel_right (List.append_cancel_left h)

theorem joinPath_orderFileName (base : Path) (o : GoOrder) (hs : 47 ∉ o.OrderID) :
    joinPath base (orderFileName o) = base ++ [orderFileName o] := by
  apply joinPath_single
  · unfold orderFileName
    rw [goString_order, goString_json]
    intro hmem
    rcases List.mem_append.1 hmem with h | h
    · rcases List.mem_append.1 h with h | h
      · exact absurd h (by decide)
      · exact hs h
    · exact absurd h (by decide)
  · unfold orderFileName
    rw [goString_order]
    simp
  · unfold orderFileName
    rw [goString_order]
    have : goString "." = [46] := by decide
    rw [this]
    simp
  · unfold orderFileName
    rw [goString_order]
    have : goString ".." = [46, 46] := by decide
    rw [this]
    simp

theorem orderOfEntry_orderEntry (o : GoOrder) :
    orderOfEntry (orderEntry o) = some (storedOrder o) := by
  have hp : hasPrefixStr (orderFileName o) (goString "order-") = true := by
    unfold hasPrefixStr orderFileName
    rw [List.isPrefixOf_iff_prefix, List.append_assoc]
    exact List.prefix_append _ _
  have hq : hasSuffixStr (orderFileName o) (goString ".json") = true := by
    unfold hasSuffixStr orderFileName
    rw [List.isSuffixOf_iff_suffix]
    exact List.suffix_append _ _
  simp [orderOfEntry, orderEntry, hp, hq]

theorem FS.put_of_get_none (fs : FS) (p : Path) (n : Node) (h : fs.get p = none) :
    fs.put p n = fs ++ [(p, n)] := by
  induction fs with
  | nil => rfl
  | cons e rest ih =>
    obtain ⟨q, m⟩ := e
    by_cases hq : q = p
    · simp [FS.get, hq] at h
    · simp only [FS.get, hq, if_false] at h
      simp [FS.put, hq, ih h]

theorem FS.mem_of_get_some (fs : FS) (p : Path) (n : Node) (h : fs.get p = some n) :
    (p, n) ∈ fs := by
  induction fs with
  | nil => simp [FS.get] at h
  | cons e rest ih =>
    obtain ⟨q, m⟩ := e
    by_cases hq : q = p
    · simp only [FS.get, hq, if_true, Option.some.injEq] at h
      simp [hq, h]
    · simp only [FS.get, hq, if_false] at h
      exact List.mem_cons_of_mem _ (ih h)

theorem FS.get_append_of_some (fs extra : FS) (p : Path) (n : Node) (h : fs.get p = some n) :
    (fs ++ extra).get p = some n := by
  induction fs with
  | nil => simp [FS.get] at h
  | cons e rest ih =>
    obtain ⟨q, m⟩ := e
    by_cases hq : q = p
    · simpa [FS.get, hq] using h
    · simp only [FS.get, hq, if_false] at h
      simp [FS.get, hq, ih h]

theorem FS.isDir_append (fs extra : FS) (p : Path) (h : fs.isDir p = true) :
    (fs ++ extra).isDir p = true := by
  unfold FS.isDir at h ⊢
  by_cases ha : isAncestorOfCwd p = true
  · simp [ha]
  · simp only [ha, if_false] at h ⊢
    cases hg : fs.get p with
    | none => simp [hg] at h
    | some n =>
      cases n with
      | dir => simp [FS.get_append_of_some fs extra p _ hg]
      | file r b => simp [hg] at h

theorem childName_concat (p : Path) (x : GoString) : childName p (p ++ [x]) = some x := by
  simp [childName]

theorem FS.children_append (a b : FS) (p : Path) :
    FS.children (a ++ b) p = FS.children a p ++ FS.children b p := by
  simp [FS.children]

theorem FS.mem_children (fs : FS) (p : Path) (x : GoString) (n : Node)
    (h : (p ++ [x], n) ∈ fs) : (x, n) ∈ fs.children p := by
  unfold FS.children
  rw [List.mem_filterMap]
  exact ⟨(p ++ [x], n), h, by simp [childName_concat]⟩

theorem children_filter_of_dirs (extra : FS) (p : Path) (h : ∀ e ∈ extra, e.2 = Node.dir) :
    (FS.children extra p).filter isFileEntry = [] := by
  rw [List.filter_eq_nil_iff]
  intro e he
  unfold FS.children at he
  rw [List.mem_filterMap] at he
  obtain ⟨a, ha, hae⟩ := he
  cases hc : childName p a.1 with
  | none => simp [hc] at hae
  | some name =>
    simp only [hc, Option.map, Option.some.injEq] at hae
    subst hae
    simp [isFileEntry, h a ha]

theorem mkdirAllFrom_append (fs : FS) (pre : Path) (cs : List GoString) :
    ∃ extra : FS, (mkdirAllFrom fs pre cs).2 = fs ++ extra ∧ ∀ e ∈ extra, e.2 = Node.dir := by
  induction cs generalizing fs pre with
  | nil => exact ⟨[], by simp [mkdirAllFrom], by simp⟩
  | cons c cs ih =>
    unfold mkdirAllFrom
    by_cases hd : FS.isDir fs (pre ++ [c]) = true
    · simp only [hd, if_true]
      exact ih fs (pre ++ [c])
    · simp only [hd]
      cases hg : fs.get (pre ++ [c]) with
      | some n => exact ⟨[], by simp, by simp⟩
      | none =>
        simp only [Bool.false_eq_true, if_false]
        obtain ⟨extra, he, hdirs⟩ := ih (fs.put (pre ++ [c]) .dir) (pre ++ [c])
        refine ⟨(pre ++ [c], Node.dir) :: extra, ?_, ?_⟩
        · rw [he, FS.put_of_get_none fs _ _ hg]
          simp
        · intro e hmem
          rcases List.mem_cons.1 hmem with h | h
          · simp [h]
          · exact hdirs e h

theorem ensureSessionFolder_append (fails : Bool) (fs : FS) (name : String) :
    ∃ extra : FS, (ensureSessionFolder fails fs name).2 = fs ++ extra ∧
      ∀ e ∈ extra, e.2 = Node.dir := by
  unfold ensureSessionFolder
  cases fails with
  | true => exact ⟨[], by simp, by simp⟩
  | false =>
    simp only [Bool.false_eq_true, if_false]
    obtain ⟨x1, h1, d1⟩ := mkdirAllFrom_append fs [] (joinPath [] (goString sessionsRoot))
    cases hm : mkdirAll fs (joinPath [] (goString sessionsRoot)) with
    | mk r fs1 =>
      have hfs1 : fs1 = fs ++ x1 := by
        have : (mkdirAll fs (joinPath [] (goString sessionsRoot))).2 = fs1 := by rw [hm]
        rw [← this]; exact h1
      cases r with
      | error e => exact ⟨x1, by simpa using hfs1, d1⟩
      | ok u =>
        obtain ⟨x2, h2, d2⟩ := mkdirAllFrom_append fs1 [] (sessionFolderPath name)
        refine ⟨x1 ++ x2, ?_, ?_⟩
        · simp only [mkdirAll]
          rw [h2, hfs1, List.append_assoc]
        · intro e hmem
          rcases List.mem_append.1 hmem with h | h
          · exact d1 e h
          · exact d2 e h

theorem writeFile_ok (fs : FS) (p : Path) (body : FileBody)
    (hok : (writeFile false fs p body).1 = .ok ()) :
    FS.isDir fs p = false ∧ FS.isDir fs p.dropLast = true ∧
    (writeFile false fs p body).2 =
      fs.put p (match fs.get p with
        | some (.file readable _) => .file readable body
        | _ => .file true body) := by
  unfold writeFile at hok ⊢
  simp only [Bool.false_eq_true, if_false] at hok ⊢
  by_cases hd : FS.isDir fs p = true
  · simp [hd] at hok
  · by_cases hpar : FS.isDir fs p.dropLast = true
    · simp only [hd, hpar, Bool.not_true, Bool.false_eq_true, if_false]
      refine ⟨by simp [hd], trivial, ?_⟩
      cases hg : fs.get p with
      | none => rfl
      | some n => cases n <;> rfl
    · simp [hd, hpar] at hok

theorem marshalOrder_ok (o : GoOrder) (doc : OrderJSON) (h : marshalOrder o = .ok doc) :
    unmarshalOrder doc = storedOrder o := by
  unfold marshalOrder at h
  by_cases ht : timestampMarshals o.Timestamp = true
  · simp only [ht, Bool.not_true, Bool.false_eq_true, if_false, Except.ok.injEq] at h
    subst h
    rfl
  · simp [ht] at h

theorem writeOrderToSession_ok (mf wf : Bool) (fs : FS) (name : String) (o : GoOrder)
    (hok : (writeOrderToSession mf wf fs name o).1 = .ok ()) :
    ∃ extra : FS, (∀ e ∈ extra, e.2 = Node.dir) ∧
      (writeFile false (fs ++ extra)
        (joinPath (sessionFolderPath name) (orderFileName o)) (.order (storedOrder o))).1
          = .ok () ∧
      (writeOrderToSession mf wf fs name o).2 =
        (writeFile false (fs ++ extra)
          (joinPath (sessionFolderPath name) (orderFileName o)) (.order (storedOrder o))).2 := by
  cases mf with
  | true => simp [writeOrderToSession, ensureSessionFolder] at hok
  | false =>
    obtain ⟨extra, he, hd⟩ := ensureSessionFolder_append false fs name
    refine ⟨extra, hd, ?_⟩
    unfold writeOrderToSession at hok ⊢
    cases hE : ensureSessionFolder false fs name with
    | mk r fs1 =>
      rw [hE] at he hok
      simp only at he
      subst he
      cases r with
      | error e => simp at hok
      | ok u =>
        simp only at hok ⊢
        cases hm : marshalOrder o with
        | error e =>
          rw [hm] at hok
          simp at hok
        | ok doc =>
          rw [hm] at hok
          simp only at hok ⊢
          rw [marshalOrder_ok o doc hm] at hok ⊢
          cases wf with
          | true => simp [writeFile] at hok
          | false => exact ⟨hok, rfl⟩

theorem FS.isDir_of_get_dir (fs : FS) (p : Path) (h : fs.get p = some .dir) :
    fs.isDir p = true := by
  unfold FS.isDir
  split
  · rfl
  · simp [h]

theorem writeOrderToSession_step (mf wf : Bool) (fs : FS) (name : String) (o : GoOrder)
    (written : List GoOrder) (hs : 47 ∉ o.OrderID)
    (hfresh : ∀ w ∈ written, w.OrderID ≠ o.OrderID)
    (hK : (fs.children (sessionFolderPath name)).filter isFileEntry = written.map orderEntry)
    (hok : (writeOrderToSession mf wf fs name o).1 = .ok ()) :
    ((writeOrderToSession mf wf fs name o).2.children
        (sessionFolderPath name)).filter isFileEntry = (written ++ [o]).map orderEntry ∧
    FS.isDir (writeOrderToSession mf wf fs name o).2 (sessionFolderPath name) = true := by
  obtain ⟨extra, hdirs, hw, hres⟩ := writeOrderToSession_ok mf wf fs name o hok
  rw [hres]
  rw [joinPath_orderFileName _ o hs] at hw ⊢
  obtain ⟨hnd, hpar, hput⟩ := writeFile_ok _ _ _ hw
  rw [List.dropLast_concat] at hpar
  have hK1 : ((fs ++ extra).children (sessionFolderPath name)).filter isFileEntry
      = written.map orderEntry := by
    rw [FS.children_append, List.filter_append, hK,
      children_filter_of_dirs extra _ hdirs, List.append_nil]
  have hget : (fs ++ extra).get (sessionFolderPath name ++ [orderFileName o]) = none := by
    cases hg : (fs ++ extra).get (sessionFolderPath name ++ [orderFileName o]) with
    | none => rfl
    | some n =>
      exfalso
      cases n with
      | dir =>
        rw [FS.isDir_of_get_dir _ _ hg] at hnd
        exact absurd hnd (by decide)
      | file r b =>
        have hmem := FS.mem_children _ _ _ _ (FS.mem_of_get_some _ _ _ hg)
        have hmem2 : (orderFileName o, Node.file r b) ∈
            ((fs ++ extra).children (sessionFolderPath name)).filter isFileEntry :=
          List.mem_filter.2 ⟨hmem, rfl⟩
        rw [hK1, List.mem_map] at hmem2
        obtain ⟨w, hwmem, hwe⟩ := hmem2
        have hname : orderFileName w = orderFileName o := congrArg Prod.fst hwe
        exact hfresh w hwmem (orderFileName_injective _ _ hname)
  rw [hput, hget]
  simp only
  rw [FS.put_of_get_none _ _ _ hget]
  constructor
  · rw [FS.children_append, List.filter_append, hK1]
    simp [FS.children, childName_concat, isFileEntry, orderEntry]
  · exact FS.isDir_append _ _ _ hpar

theorem orderOfEntry_of_dir (e : GoString × Node) (h : isFileEntry e = false) :
    orderOfEntry e = none := by
  obtain ⟨name, node⟩ := e
  cases node with
  | dir => rfl
  | file r b => simp [isFileEntry] at h

theorem filterMap_orderOfEntry_filter (l : List (GoString × Node)) :
    l.filterMap orderOfEntry = (l.filter isFileEntry).filterMap orderOfEntry := by
  induction l with
  | nil => rfl
  | cons e rest ih =>
    by_cases h : isFileEntry e = true
    · simp [List.filter_cons, h, List.filterMap_cons, ih]
    · have h2 : isFileEntry e = false := by simpa using h
      simp [List.filter_cons, h2, List.filterMap_cons, orderOfEntry_of_dir e h2, ih]

theorem filterMap_orderOfEntry_orderEntry (l : List GoOrder) :
    (l.map orderEntry).filterMap orderOfEntry = l.map storedOrder := by
  induction l with
  | nil => rfl
  | cons o rest ih => simp [List.filterMap_cons, orderOfEntry_orderEntry, ih]

theorem writeOrders_inv (mf wf : GoOrder → Bool) (name : String) (orders : List GoOrder)
    (fs : FS) (written : List GoOrder)
    (hs : ∀ o ∈ orders, 47 ∉ o.OrderID)
    (hnodup : ((written ++ orders).map GoOrder.OrderID).Nodup)
    (hK : (fs.children (sessionFolderPath name)).filter isFileEntry = written.map orderEntry)
    (hdir : FS.isDir fs (sessionFolderPath name) = true ∨ orders ≠ [])
    (hok : (writeOrders mf wf name orders fs).1 = .ok ()) :
    ((writeOrders mf wf name orders fs).2.children (sessionFolderPath name)).filter isFileEntry
      = (written ++ orders).map orderEntry ∧
    FS.isDir (writeOrders mf wf name orders fs).2 (sessionFolderPath name) = true := by
  induction orders generalizing fs written with
  | nil =>
    simp only [writeOrders, List.append_nil]
    refine ⟨hK, ?_⟩
    rcases hdir with h | h
    · exact h
    · exact absurd rfl h
  | cons o rest ih =>
    unfold writeOrders at hok ⊢
    cases hw : writeOrderToSession (mf o) (wf o) fs name o with
    | mk r fs1 =>
      rw [hw] at hok
      cases r with
      | error e => simp at hok
      | ok u =>
        simp only at hok ⊢
        have hok1 : (writeOrderToSession (mf o) (wf o) fs name o).1 = .ok () := by rw [hw]
        have hfresh : ∀ w ∈ written, w.OrderID ≠ o.OrderID := by
          intro w hwm heq
          rw [List.map_append, List.nodup_append] at hnodup
          exact hnodup.2.2 (List.mem_map_of_mem _ hwm)
            (by rw [heq]; simp)
        have hstep := writeOrderToSession_step (mf o) (wf o) fs name o written
          (hs o (List.mem_cons_self _ _)) hfresh hK hok1
        rw [hw] at hstep
        have hih := ih fs1 (written ++ [o])
          (fun x hx => hs x (List.mem_cons_of_mem _ hx))
          (by simpa [List.append_assoc] using hnodup) hstep.1 (Or.inl hstep.2) hok
        simpa [List.append_assoc] using hih

theorem zone_whole_minutes (offset : Int) (h : offset % 60 = 0) :
    zoneMinutesOf offset * 60 = offset := by
  unfold zoneMinutesOf
  split <;> omega

theorem storedOrder_matches (o : GoOrder) (h1 : IsUTF8 o.OrderID) (h2 : IsUTF8 o.Drink)
    (h3 : IsUTF8 o.CustomerName) (h4 : IsUTF8 o.Instructions)
    (hz : o.Timestamp.offsetSeconds % 60 = 0) : OrderMatches (storedOrder o) o := by
  refine ⟨goString_jsonText_of_utf8 _ h1, goString_jsonText_of_utf8 _ h2,
    goString_jsonText_of_utf8 _ h3, goString_jsonText_of_utf8 _ h4, ?_⟩
  have hzm := zone_whole_minutes _ hz
  simp only [storedOrder]
  have : zoneMinutesOf o.Timestamp.offsetSeconds * 60 * 1000000000
      = o.Timestamp.offsetSeconds * 1000000000 := by rw [hzm]
  omega

/-! ## The orders that `handleCreateOrder` writes -/

theorem digitChar_ne_slash (d : Nat) (h : d < 10) : Nat.digitChar d ≠ '/' := by
  interval_cases d <;> decide

theorem toDigitsCore_no_slash (fuel n : Nat) (acc : List Char) (h : '/' ∉ acc) :
    '/' ∉ Nat.toDigitsCore 10 fuel n acc := by
  induction fuel generalizing n acc with
  | zero => simpa [Nat.toDigitsCore] using h
  | succ k ih =>
    unfold Nat.toDigitsCore
    have hacc : '/' ∉ Nat.digitChar (n % 10) :: acc := by
      intro hm
      rcases List.mem_cons.1 hm with h1 | h1
      · exact digitChar_ne_slash _ (Nat.mod_lt _ (by decide)) h1.symm
      · exact h h1
    simp only
    split
    · exact hacc
    · exact ih _ _ hacc

theorem natRepr_no_slash (n : Nat) : '/' ∉ (Nat.repr n).data := by
  unfold Nat.repr Nat.toDigits
  simpa [List.asString] using toDigitsCore_no_slash (n + 1) n [] (by simp)

theorem intToString_no_slash (n : Int) : '/' ∉ (toString n).data := by
  cases n with
  | ofNat m => exact natRepr_no_slash m
  | negSucc m =>
    show '/' ∉ ("-" ++ Nat.repr (m + 1)).data
    rw [String.data_append]
    intro h
    rcases List.mem_append.1 h with h1 | h1
    · exact absurd h1 (by decide)
    · exact natRepr_no_slash _ h1

theorem slash_of_mem_utf8Bytes (c : Char) (h : 47 ∈ utf8Bytes c) : c = '/' := by
  apply char_eq_of_toNat_eq
  have hs : '/'.toNat = 47 := by decide
  rw [hs]
  unfold utf8Bytes at h
  split_ifs at h <;> simp at h <;> omega

theorem slash_of_mem_encodeRunes (l : List Char) (h : 47 ∈ encodeRunes l) : '/' ∈ l := by
  induction l with
  | nil => simp [encodeRunes] at h
  | cons c cs ih =>
    rw [encodeRunes] at h
    rcases List.mem_append.1 h with h1 | h1
    · rw [slash_of_mem_utf8Bytes c h1]
      exact List.mem_cons_self _ _
    · exact List.mem_cons_of_mem _ (ih h1)

/-- Every order that `handleCreateOrder` hands to `writeOrderToSession` is text
with an identity free of `/` and a time in UTC. -/
theorem submitted_order_conditions (env : Env) (o : Order)
    (hid : o.OrderID = generateOrderID env) :
    (IsUTF8 o.toGo.OrderID ∧ IsUTF8 o.toGo.Drink ∧ IsUTF8 o.toGo.CustomerName ∧
      IsUTF8 o.toGo.Instructions) ∧
    '/'.toNat ∉ o.toGo.OrderID ∧ o.toGo.Timestamp.offsetSeconds % 60 = 0 := by
  refine ⟨⟨⟨_, rfl⟩, ⟨_, rfl⟩, ⟨_, rfl⟩, ⟨_, rfl⟩⟩, ?_, rfl⟩
  intro h
  have h2 : '/' ∈ o.OrderID.data := slash_of_mem_encodeRunes _ h
  rw [hid] at h2
  exact intToString_no_slash _ h2

/-! ## Order submissions and the popularity record -/

theorem wrapInt64_add (x y : Int) : wrapInt64 (wrapInt64 x + y) = wrapInt64 (x + y) := by
  unfold wrapInt64
  omega

theorem handleCreateOrder_popular (env : Env) (method : String)
    (body : Option CreateOrderRequest) (st : ServerState) (d : String)
    (hlog : (handleCreateOrder env method body st).popularFailureLogged = false) :
    storedCount (handleCreateOrder env method body st).state.popular d =
      if createdFor d (handleCreateOrder env method body st) = true then
        some (wrapInt64 ((storedCount st.popular d).getD 0 + 1))
      else storedCount st.popular d := by
  unfold handleCreateOrder at hlog ⊢
  by_cases hm : method = "POST"
  swap
  · simp [hm, createdFor]
  by_cases hs : getSelectedSession st = ""
  · simp [hm, hs, createdFor]
  cases body with
  | none => simp [hm, hs, createdFor]
  | some req =>
    by_cases hd : trimSpace req.Drink = ""
    · simp [hm, hs, hd, createdFor]
    by_cases hc : trimSpace req.CustomerName = ""
    · simp [hm, hs, hd, hc, createdFor]
    by_cases hmenu : drinkOnMenu env (trimSpace req.Drink) = true
    swap
    · simp [hm, hs, hd, hc, hmenu, createdFor]
    simp only [hm, hs, hd, hc, hmenu, ne_eq, not_true_eq_false, if_false, Bool.not_true,
      Bool.false_eq_true] at hlog ⊢
    cases hw : writeOrderToSession env.mkdirFails env.fileWriteFails st.fs
        (getSelectedSession st)
        (Order.toGo
          { OrderID := generateOrderID env, Drink := trimSpace req.Drink,
            CustomerName := trimSpace req.CustomerName,
            Instructions := trimSpace req.Instructions, Timestamp := env.stampNanos }) with
    | mk r fs1 =>
      rw [hw] at hlog
      cases r with
      | error e => simp [createdFor]
      | ok u =>
        simp only at hlog ⊢
        cases hi : incrementPopularCount env.popularReadFails env.popularWrite
            (trimSpace req.Drink) st.popular with
        | mk r2 pop1 =>
          rw [hi] at hlog
          cases r2 with
          | error e => simp at hlog
          | ok u2 =>
            have hinc := storedCount_increment env.popularReadFails env.popularWrite
              (trimSpace req.Drink) st.popular (by rw [hi]) d
            rw [hi] at hinc
            simp only at hinc ⊢
            rw [hinc]
            by_cases hdd : trimSpace req.Drink = d
            · subst hdd
              simp [createdFor]
            · have hdd2 : ¬ d = trimSpace req.Drink := fun h => hdd h.symm
              simp [createdFor, hdd, hdd2]

theorem submitOrders_popular
    (steps : List (Env × String × Option CreateOrderRequest)) (st : ServerState) (d : String)
    (hlog : ∀ out ∈ (submitOrders steps st).1, out.popularFailureLogged = false) :
    storedCount (submitOrders steps st).2.popular d =
      if appendedCount d (submitOrders steps st).1 = 0 then storedCount st.popular d
      else some (wrapInt64 ((storedCount st.popular d).getD 0
        + (appendedCount d (submitOrders steps st).1 : Int))) := by
  induction steps generalizing st with
  | nil => simp [submitOrders, appendedCount]
  | cons step rest ih =>
    obtain ⟨env, method, body⟩ := step
    simp only [submitOrders] at hlog ⊢
    have hlog1 := hlog _ (List.mem_cons_self _ _)
    have hrest := ih (handleCreateOrder env method body st).state
      (fun out hout => hlog out (List.mem_cons_of_mem _ hout))
    have hstep := handleCreateOrder_popular env method body st d hlog1
    rw [hrest, hstep]
    simp only [appendedCount, List.countP_cons]
    by_cases hc : createdFor d (handleCreateOrder env method body st) = true
    · simp only [hc, if_true, Option.getD_some]
      by_cases h0 : List.countP (createdFor d)
          (submitOrders rest (handleCreateOrder env method body st).state).1 = 0
      · simp [h0]
      · simp only [h0, if_false]
        rw [wrapInt64_add]
        simp
        congr 1
        ring
    · simp [hc]

theorem sampleStep_outcome (pop : PopularFile) :
    handleCreateOrder sampleEnv "POST" (some ⟨"Latte", "Ann", ""⟩) ⟨"s1", sampleStore, pop⟩ =
      ⟨.created ⟨"1700000000000000001", "Latte", "Ann", "", 1700000000000000002⟩, false,
        ⟨"s1", sampleStore, (incrementPopularCount false .ok "Latte" pop).2⟩⟩ := by
  cases pop with
  | none => rfl
  | some data =>
    cases data with
    | malformed => rfl
    | stats counts =>
      cases counts with
      | none => rfl
      | some c => rfl

theorem sampleStep_replicate (n : Nat) (pop : PopularFile) :
    (∀ out ∈ (submitOrders (List.replicate n sampleStep) ⟨"s1", sampleStore, pop⟩).1,
      out.popularFailureLogged = false) ∧
    appendedCount "Latte"
      (submitOrders (List.replicate n sampleStep) ⟨"s1", sampleStore, pop⟩).1 = n := by
  induction n generalizing pop with
  | zero => simp [submitOrders, appendedCount]
  | succ k ih =>
    simp only [List.replicate_succ, sampleStep, submitOrders, sampleStep_outcome]
    obtain ⟨h1, h2⟩ := ih (incrementPopularCount false .ok "Latte" pop).2
    simp only [sampleStep] at h1 h2
    constructor
    · intro out hout
      rcases List.mem_cons.1 hout with h | h
      · rw [h]
      · exact h1 out h
    · simp only [appendedCount, List.countP_cons] at h2 ⊢
      rw [h2]
      simp [createdFor]

/-! ## The selected session -/

theorem handleCreateSession_selected (env : Env) (method : String) (body : Option String)
    (st : ServerState) (h : SelectedValid st) :
    SelectedValid (handleCreateSession env method body st).2 := by
  unfold handleCreateSession
  by_cases hm : method = "POST"
  swap
  · simpa [hm] using h
  cases body with
  | none => simpa [hm] using h
  | some raw =>
    by_cases he : trimSpace raw = ""
    · simpa [hm, he] using h
    by_cases hv : isValidSessionName (trimSpace raw) = true
    swap
    · simpa [hm, he, hv] using h
    simp only [hm, he, hv, ne_eq, not_true_eq_false, if_false, Bool.not_true,
      Bool.false_eq_true]
    split
    · exact h
    · exact Or.inr hv

theorem handleSwitchSession_selected (method : String) (body : Option String)
    (st : ServerState) (h : SelectedValid st) :
    SelectedValid (handleSwitchSession method body st).2 := by
  unfold handleSwitchSession
  by_cases hm : method = "POST"
  swap
  · simpa [hm] using h
  cases body with
  | none => simpa [hm] using h
  | some raw =>
    by_cases he : trimSpace raw = ""
    · simpa [hm, he] using h
    by_cases hv : isValidSessionName (trimSpace raw) = true
    swap
    · simpa [hm, he, hv] using h
    simp only [hm, he, hv, ne_eq, not_true_eq_false, if_false, Bool.not_true,
      Bool.false_eq_true]
    split
    · exact h
    · exact Or.inr hv

/-! ## Claims -/

/-- C1: for every popularity mapping `m` (pairwise distinct drinks, visited in
any order) that the load returns, `handlePopular` and `adminHandlePopular`
answer a GET with the same list of items; it holds exactly the items of `m`,
one per entry, and every adjacent pair is in descending count order with ties
in ascending drink order.  For the counts Latte 3, Mocha 5, Espresso 5, in
whatever order the map is visited, the list is Espresso 5, Mocha 5, Latte 3. -/
theorem popular_snapshot_sorted (m : Counts) (readFails : Bool) (file : PopularFile)
    (hload : loadPopularStats readFails file = .ok m) (hwf : m.WF) :
    (∃ items : List popularItem,
      handlePopular "GET" readFails file = .ok items ∧
      adminHandlePopular "GET" readFails file = .ok items ∧
      items.Perm (collectItems m) ∧
      items.Chain' (fun a b =>
        a.Count > b.Count ∨ (a.Count = b.Count ∧ stringLess a.Drink b.Drink = true))) ∧
    (∀ visited : Counts, visited.Perm [("Latte", 3), ("Mocha", 5), ("Espresso", 5)] →
      handlePopular "GET" false (some (.stats (some visited))) =
        .ok [⟨"Espresso", 5⟩, ⟨"Mocha", 5⟩, ⟨"Latte", 3⟩] ∧
      adminHandlePopular "GET" false (some (.stats (some visited))) =
        .ok [⟨"Espresso", 5⟩, ⟨"Mocha", 5⟩, ⟨"Latte", 3⟩]) := by
  constructor
  · refine ⟨popularSnapshot m, ?_, ?_, popularSnapshot_perm m,
      (popularSnapshot_pairwise m hwf).chain'⟩
    · simp [handlePopular, hload, popularSnapshot]
    · simp [adminHandlePopular, hload, popularSnapshot]
  · intro visited hv
    have hwfv : Counts.WF visited := by
      unfold Counts.WF
      exact (hv.map Prod.fst).nodup_iff.2 (by decide)
    have hp : List.Perm [(⟨"Espresso", 5⟩ : popularItem), ⟨"Mocha", 5⟩, ⟨"Latte", 3⟩]
        (collectItems visited) := by
      have h1 : (collectItems visited).Perm
          (collectItems [("Latte", 3), ("Mocha", 5), ("Espresso", 5)]) := hv.map _
      refine List.Perm.trans ?_ h1.symm
      decide
    have hs : List.Pairwise PopularBefore
        [(⟨"Espresso", 5⟩ : popularItem), ⟨"Mocha", 5⟩, ⟨"Latte", 3⟩] := by decide
    have hu := popularSnapshot_unique visited hwfv _ hp hs
    constructor
    · simp only [handlePopular, loadPopularStats]
      simp [← hu, popularSnapshot]
    · simp only [adminHandlePopular, loadPopularStats]
      simp [← hu, popularSnapshot]

/-- Witness of C1 at the mapping Latte 3, Mocha 5, Espresso 5 stored in the file. -/
theorem popular_snapshot_sorted_witness :
    loadPopularStats false (some (.stats (some [("Latte", 3), ("Mocha", 5), ("Espresso", 5)])))
      = .ok [("Latte", 3), ("Mocha", 5), ("Espresso", 5)] ∧
    Counts.WF [("Latte", 3), ("Mocha", 5), ("Espresso", 5)] ∧
    ∃ items : List popularItem,
      handlePopular "GET" false
        (some (.stats (some [("Latte", 3), ("Mocha", 5), ("Espresso", 5)]))) = .ok items ∧
      adminHandlePopular "GET" false
        (some (.stats (some [("Latte", 3), ("Mocha", 5), ("Espresso", 5)]))) = .ok items ∧
      items.Perm (collectItems [("Latte", 3), ("Mocha", 5), ("Espresso", 5)]) ∧
      items.Chain' (fun a b =>
        a.Count > b.Count ∨ (a.Count = b.Count ∧ stringLess a.Drink b.Drink = true)) :=
  ⟨rfl, by unfold Counts.WF; decide,
    (popular_snapshot_sorted [("Latte", 3), ("Mocha", 5), ("Espresso", 5)] false
      (some (.stats (some [("Latte", 3), ("Mocha", 5), ("Espresso", 5)]))) rfl
      (by unfold Counts.WF; decide)).1⟩

/-- C3 as the code has it: `isValidSessionName` returns true exactly when every
character of the name is in `[A-Za-z0-9_-]`, which includes the empty name; it
returns false for `a/b` and for `a.b`. -/
theorem isValidSessionName_iff (name : String) :
    (isValidSessionName name = true ↔ ∀ c ∈ name.data, InSessionClass c) ∧
    isValidSessionName "a/b" = false ∧ isValidSessionName "a.b" = false :=
  ⟨isValidSessionNameLoop_iff name.data, by decide, by decide⟩

/-- C3 as stated fails at the empty name: the loop body never runs and the
function returns true although the name is empty. -/
theorem isValidSessionName_empty_counterexample :
    ¬ (isValidSessionName "" = true ↔
        ("" ≠ "" ∧ ∀ c ∈ "".data, InSessionClass c)) := by
  intro h
  exact (h.1 (by decide)).1 rfl

/-- C2 within the range of the Go `int`: after a successful
`incrementPopularCount d` the stored count of `d` is the old one plus 1 when
`d` was present with a count below 2^63 - 1, it is 1 when `d` was absent, and
the entry of every other drink, present or absent, is as before. -/
theorem incrementPopularCount_spec (readFails : Bool) (w : WriteOutcome) (d : String)
    (file : PopularFile)
    (hok : (incrementPopularCount readFails w d file).1 = .ok ()) :
    (∀ v : Int, storedCount file d = some v → -2 ^ 63 ≤ v → v < 2 ^ 63 - 1 →
      storedCount (incrementPopularCount readFails w d file).2 d = some (v + 1)) ∧
    (storedCount file d = none →
      storedCount (incrementPopularCount readFails w d file).2 d = some 1) ∧
    (∀ e : String, e ≠ d →
      storedCount (incrementPopularCount readFails w d file).2 e = storedCount file e) := by
  refine ⟨?_, ?_, ?_⟩
  · intro v hv h1 h2
    rw [storedCount_increment readFails w d file hok d, hv]
    simp only [if_true, Option.getD_some]
    rw [wrapInt64_of_range _ (by omega) (by omega)]
  · intro hv
    rw [storedCount_increment readFails w d file hok d, hv]
    simp only [if_true, Option.getD_none]
    rfl
  · intro e he
    rw [storedCount_increment readFails w d file hok e]
    simp [he]

/-- Witness of C2: Latte stored with count 3 goes to 4. -/
theorem incrementPopularCount_spec_witness :
    (incrementPopularCount false .ok "Latte" (some (.stats (some [("Latte", 3)])))).1 = .ok () ∧
    storedCount (incrementPopularCount false .ok "Latte"
      (some (.stats (some [("Latte", 3)])))).2 "Latte" = some (3 + 1) :=
  ⟨rfl, (incrementPopularCount_spec false .ok "Latte" (some (.stats (some [("Latte", 3)])))
    rfl).1 3 rfl (by decide) (by decide)⟩

/-- C2 as stated fails at the largest Go `int`: Latte stored with count
2^63 - 1 is incremented successfully and the stored count becomes -2^63, not
2^63. -/
theorem incrementPopularCount_overflow_counterexample :
    storedCount (some (.stats (some [("Latte", 9223372036854775807)]))) "Latte"
      = some 9223372036854775807 ∧
    (incrementPopularCount false .ok "Latte"
      (some (.stats (some [("Latte", 9223372036854775807)])))).1 = .ok () ∧
    storedCount (incrementPopularCount false .ok "Latte"
      (some (.stats (some [("Latte", 9223372036854775807)])))).2 "Latte"
      = some (-9223372036854775808) ∧
    storedCount (incrementPopularCount false .ok "Latte"
      (some (.stats (some [("Latte", 9223372036854775807)])))).2 "Latte"
      ≠ some (9223372036854775807 + 1) := by
  refine ⟨by decide, rfl, by decide, by decide⟩

/-- C9: when no session is selected, `handleCreateOrder` leaves the session
storage, the popularity record and the selected session as they were and logs
no popularity failure, whatever the body holds; a POST is answered with
"no session selected" (any other method with "method not allowed"). -/
theorem handleCreateOrder_no_session (env : Env) (method : String)
    (body : Option CreateOrderRequest) (st : ServerState)
    (h : getSelectedSession st = "") :
    (handleCreateOrder env method body st).state = st ∧
    (handleCreateOrder env method body st).popularFailureLogged = false ∧
    (method = "POST" →
      (handleCreateOrder env method body st).response = .noSessionSelected) ∧
    (method ≠ "POST" →
      (handleCreateOrder env method body st).response = .methodNotAllowed) := by
  unfold handleCreateOrder
  by_cases hm : method = "POST"
  · simp [hm, h]
  · simp [hm]

/-- Witness of C9: a well-formed Latte order sent while no session is selected. -/
theorem handleCreateOrder_no_session_witness :
    getSelectedSession ⟨"", [], none⟩ = "" ∧
    (handleCreateOrder sampleEnv "POST" (some ⟨"Latte", "Ann", ""⟩) ⟨"", [], none⟩).state
      = ⟨"", [], none⟩ ∧
    (handleCreateOrder sampleEnv "POST" (some ⟨"Latte", "Ann", ""⟩) ⟨"", [], none⟩).response
      = .noSessionSelected :=
  ⟨rfl,
    (handleCreateOrder_no_session sampleEnv "POST" (some ⟨"Latte", "Ann", ""⟩)
      ⟨"", [], none⟩ rfl).1,
    (handleCreateOrder_no_session sampleEnv "POST" (some ⟨"Latte", "Ann", ""⟩)
      ⟨"", [], none⟩ rfl).2.2.1 rfl⟩

/-- C5: `drinkOnMenu d` is true exactly when some menu entry equals `d` under
case-insensitive comparison: the two have the same number of runes and each
pair of runes is the same rune, or agrees after lower-casing the ASCII letters,
or is related by the Unicode folding table.  For an ASCII menu and an ASCII
drink that is: some menu entry and the drink are equal after lower-casing.
With the menu Latte, Mocha the drink latte is accepted and Unicorn Frappe is
not; and a submission whose trimmed drink is not on the menu stores nothing,
is never answered with a created order, and is answered with "drink not on
menu" once it has passed the earlier checks (POST, a selected session, a drink
and a customer name). -/
theorem drinkOnMenu_iff (env : Env) (d : String) :
    (drinkOnMenu env d = true ↔
      ∃ item ∈ env.menu, List.Forall₂ (FoldEqual env.simpleFold) item.data d.data) ∧
    ((∀ c ∈ d.data, c.toNat < 128) →
      (∀ item ∈ env.menu, ∀ c ∈ item.data, c.toNat < 128) →
      (drinkOnMenu env d = true ↔
        ∃ item ∈ env.menu, item.data.map Char.toLower = d.data.map Char.toLower)) ∧
    (drinkOnMenu { env with menu := ["Latte", "Mocha"] } "latte" = true ∧
      drinkOnMenu { env with menu := ["Latte", "Mocha"] } "Unicorn Frappe" = false) ∧
    (∀ (method : String) (req : CreateOrderRequest) (st : ServerState),
      drinkOnMenu env (trimSpace req.Drink) = false →
      (handleCreateOrder env method (some req) st).state = st ∧
      (∀ o : Order, (handleCreateOrder env method (some req) st).response ≠ .created o) ∧
      (method = "POST" → getSelectedSession st ≠ "" → trimSpace req.Drink ≠ "" →
        trimSpace req.CustomerName ≠ "" →
        (handleCreateOrder env method (some req) st).response = .drinkNotOnMenu)) := by
  refine ⟨drinkOnMenuLoop_iff _ _ _, ?_, ⟨?_, ?_⟩, ?_⟩
  · intro hd hmenu
    unfold drinkOnMenu
    rw [drinkOnMenuLoop_iff]
    constructor
    · rintro ⟨item, hmem, h⟩
      exact ⟨item, hmem,
        (forall₂_foldEqual_ascii _ _ _ (hmenu item hmem) hd).1 h⟩
    · rintro ⟨item, hmem, h⟩
      exact ⟨item, hmem,
        (forall₂_foldEqual_ascii _ _ _ (hmenu item hmem) hd).2 h⟩
  · simp [drinkOnMenu, drinkOnMenuLoop, equalFold, equalFoldRunes, runeEqualFold]
  · simp [drinkOnMenu, drinkOnMenuLoop, equalFold, equalFoldRunes, runeEqualFold]
  · intro method req st hmenu
    unfold handleCreateOrder
    by_cases hm : method = "POST"
    · by_cases hs : getSelectedSession st = ""
      · simp [hm, hs]
      · by_cases hd : trimSpace req.Drink = ""
        · simp [hm, hs, hd]
        · by_cases hc : trimSpace req.CustomerName = ""
          · simp [hm, hs, hd, hc]
          · simp [hm, hs, hd, hc, hmenu]
    · simp [hm]

/-- C7: whenever the session directory can be enumerated,
`readOrdersFromSession` succeeds and returns, in enumeration order, exactly
the orders of the entries that are readable non-directory files named
`order-...json` whose content parses; all other entries are skipped.  It fails
exactly when the enumeration fails.  A directory holding one well-formed order
file and one order file with invalid content yields the one order. -/
theorem readOrdersFromSession_spec (readDirFails : Bool) (fs : FS) (name : String) :
    (∀ entries : List (GoString × Node),
      readDir readDirFails fs (sessionFolderPath name) = .ok entries →
      readOrdersFromSession readDirFails fs name = .ok (entries.filterMap orderOfEntry)) ∧
    (∀ e : StorageError,
      readOrdersFromSession readDirFails fs name = .error e ↔
      readDir readDirFails fs (sessionFolderPath name) = .error e) ∧
    (∀ o : Order,
      readOrdersFromSession false
        [(["Sessions"], .dir), (["Sessions", "s"], .dir),
         (["Sessions", "s", "order-2.json"], .file true .garbage),
         (["Sessions", "s", "order-1.json"], .file true (.order o))] "s" = .ok [o]) := by
  refine ⟨?_, ?_, ?_⟩
  · intro entries h
    simp [readOrdersFromSession, h, readOrdersLoop_eq]
  · intro e
    unfold readOrdersFromSession
    cases h : readDir readDirFails fs (sessionFolderPath name) with
    | error e2 => simp
    | ok entries => simp
  · intro o
    rfl

/-- C6 for orders that are text with a whole-minute zone: when orders with
pairwise distinct identities are written with `writeOrderToSession` into a
session directory that has no entries (it exists, or at least one order is
written), every string of every order being well-formed UTF-8, no identity
containing the path separator `/`, every timestamp carrying a zone offset of
whole minutes, and every write succeeds, then `readOrdersFromSession` succeeds
and returns exactly as many orders, which are, one for one and in some order,
the written orders read back with the same identity, drink, customer name and
instructions and with the same instant as timestamp. -/
theorem writeOrders_read_back (mkdirFails writeFails : GoOrder → Bool) (name : String)
    (orders : List GoOrder) (fs : FS)
    (hids : (orders.map GoOrder.OrderID).Nodup)
    (hutf : ∀ o ∈ orders,
      IsUTF8 o.OrderID ∧ IsUTF8 o.Drink ∧ IsUTF8 o.CustomerName ∧ IsUTF8 o.Instructions)
    (hslash : ∀ o ∈ orders, '/'.toNat ∉ o.OrderID)
    (hzone : ∀ o ∈ orders, o.Timestamp.offsetSeconds % 60 = 0)
    (hempty : fs.children (sessionFolderPath name) = [])
    (hdir : FS.isDir fs (sessionFolderPath name) = true ∨ orders ≠ [])
    (hok : (writeOrders mkdirFails writeFails name orders fs).1 = .ok ()) :
    ∃ result : List Order,
      readOrdersFromSession false (writeOrders mkdirFails writeFails name orders fs).2 name = .ok result ∧
      result.length = orders.length ∧
      ∃ readBack : GoOrder → Order,
        (∀ o ∈ orders, OrderMatches (readBack o) o) ∧
        result.Perm (orders.map readBack) := by
  have hinv := writeOrders_inv mkdirFails writeFails name orders fs [] hslash (by simpa using hids)
    (by simp [hempty]) hdir hok
  obtain ⟨hfiles, hisdir⟩ := hinv
  simp only [List.nil_append] at hfiles
  have hperm : (List.filterMap orderOfEntry
      (sortSlice (fun a b => bytesLess a.1 b.1)
        ((writeOrders mkdirFails writeFails name orders fs).2.children (sessionFolderPath name)))).Perm
      (orders.map storedOrder) := by
    have h1 := (sortSlice_perm (fun a b : GoString × Node => bytesLess a.1 b.1)
      ((writeOrders mkdirFails writeFails name orders fs).2.children (sessionFolderPath name))).filterMap
      orderOfEntry
    rw [filterMap_orderOfEntry_filter
      ((writeOrders mkdirFails writeFails name orders fs).2.children (sessionFolderPath name)), hfiles,
      filterMap_orderOfEntry_orderEntry] at h1
    exact h1
  refine ⟨_, ?_, by rw [hperm.length_eq, List.length_map], storedOrder, ?_, hperm⟩
  · simp [readOrdersFromSession, readDir, hisdir, readOrdersLoop_eq]
  · intro o ho
    obtain ⟨h1, h2, h3, h4⟩ := hutf o ho
    exact storedOrder_matches o h1 h2 h3 h4 (hzone o ho)

/-- Witness of C6: the two sample orders, one with the drink Café and a zone
one hour east of UTC, written to the new session `s`. -/
theorem writeOrders_read_back_witness :
    (writeOrders (fun _ => false) (fun _ => false) "s" sampleOrders []).1 = .ok () ∧
    ∃ result : List Order,
      readOrdersFromSession false (writeOrders (fun _ => false) (fun _ => false) "s" sampleOrders []).2 "s" = .ok result ∧
      result.length = sampleOrders.length ∧
      ∃ readBack : GoOrder → Order,
        (∀ o ∈ sampleOrders, OrderMatches (readBack o) o) ∧
        result.Perm (sampleOrders.map readBack) :=
  ⟨rfl, writeOrders_read_back (fun _ => false) (fun _ => false) "s" sampleOrders [] (by decide)
    (by
      intro o ho
      simp only [sampleOrders, List.mem_cons, List.mem_singleton, List.not_mem_nil,
        or_false] at ho
      rcases ho with h | h
      · subst h
        exact ⟨⟨"1", rfl⟩, ⟨"Latte", rfl⟩, ⟨"Ann", rfl⟩, ⟨"", rfl⟩⟩
      · subst h
        exact ⟨⟨"2", rfl⟩, ⟨"Café", rfl⟩, ⟨"Bob", rfl⟩, ⟨"extra hot", rfl⟩⟩)
    (by decide) (by decide) rfl (Or.inr (by decide)) rfl⟩

/-- C6 as stated fails in three ways.  The order with the identity `x/../1` is
written successfully to the file `1.json` of the session, which does not carry
the prefix `order-`, and reading the session back returns no order.  The order
whose drink is the single byte `0xFF`, which is not UTF-8, is read back with
the drink U+FFFD.  The order whose zone is 30 seconds east of UTC is read back
with an instant 30 seconds later. -/
theorem writeOrders_read_back_counterexample :
    ((writeOrders (fun _ => false) (fun _ => false) "s"
        [⟨goString "x/../1", goString "Latte", goString "Ann", goString "",
          ⟨1700000000000000002, 0⟩⟩] []).1 = .ok () ∧
      (writeOrders (fun _ => false) (fun _ => false) "s"
        [⟨goString "x/../1", goString "Latte", goString "Ann", goString "",
          ⟨1700000000000000002, 0⟩⟩] []).2 =
        [([goString "Sessions"], .dir), ([goString "Sessions", goString "s"], .dir),
         ([goString "Sessions", goString "s", goString "1.json"],
           .file true (.order ⟨"x/../1", "Latte", "Ann", "", 1700000000000000002⟩))] ∧
      readOrdersFromSession false
        (writeOrders (fun _ => false) (fun _ => false) "s"
          [⟨goString "x/../1", goString "Latte", goString "Ann", goString "",
            ⟨1700000000000000002, 0⟩⟩] []).2 "s" = .ok []) ∧
    ((writeOrders (fun _ => false) (fun _ => false) "s"
        [⟨goString "1", [0xFF], goString "Ann", goString "",
          ⟨1700000000000000002, 0⟩⟩] []).1 = .ok () ∧
      readOrdersFromSession false
        (writeOrders (fun _ => false) (fun _ => false) "s"
          [⟨goString "1", [0xFF], goString "Ann", goString "",
            ⟨1700000000000000002, 0⟩⟩] []).2 "s"
        = .ok [⟨"1", String.mk [Char.ofNat 0xFFFD], "Ann", "", 1700000000000000002⟩] ∧
      goString (String.mk [Char.ofNat 0xFFFD]) ≠ [0xFF]) ∧
    ((writeOrders (fun _ => false) (fun _ => false) "s"
        [⟨goString "1", goString "Latte", goString "Ann", goString "",
          ⟨1700000000000000002, 30⟩⟩] []).1 = .ok () ∧
      readOrdersFromSession false
        (writeOrders (fun _ => false) (fun _ => false) "s"
          [⟨goString "1", goString "Latte", goString "Ann", goString "",
            ⟨1700000000000000002, 30⟩⟩] []).2 "s"
        = .ok [⟨"1", "Latte", "Ann", "", 1700000030000000002⟩] ∧
      (1700000030000000002 : Int) / 1000000000 ≠ 1700000000000000002 / 1000000000) := by
  refine ⟨⟨rfl, by decide, rfl⟩, ⟨rfl, rfl, by decide⟩, ⟨rfl, rfl, by decide⟩⟩

/-- C4 within the range of the Go `int`: starting from an absent popularity
record, after any sequence of order submissions in which no popularity failure
is logged, the stored count of a drink `d` is the number of submissions that
were answered with a stored order whose Drink is exactly `d`, as long as that
number is below 2^63; with no such submission `d` has no entry; and a
submission that is not answered with a stored order leaves the record as it
was. -/
theorem popularity_count_invariant
    (steps : List (Env × String × Option CreateOrderRequest)) (st : ServerState) (d : String)
    (habsent : st.popular = none)
    (hnofail : ∀ out ∈ (submitOrders steps st).1, out.popularFailureLogged = false)
    (hbound : (appendedCount d (submitOrders steps st).1 : Int) < 2 ^ 63) :
    storedCount (submitOrders steps st).2.popular d =
      (if appendedCount d (submitOrders steps st).1 = 0 then none
        else some (appendedCount d (submitOrders steps st).1 : Int)) ∧
    (∀ (env : Env) (method : String) (body : Option CreateOrderRequest) (s : ServerState),
      (∀ o : Order, (handleCreateOrder env method body s).response ≠ .created o) →
      (handleCreateOrder env method body s).state.popular = s.popular) := by
  constructor
  · rw [submitOrders_popular steps st d hnofail, habsent]
    by_cases h0 : appendedCount d (submitOrders steps st).1 = 0
    · simp [h0, storedCount, loadPopularStats, Counts.find]
    · simp only [h0, if_false, storedCount, loadPopularStats, Counts.find, Bool.false_eq_true,
        Option.getD_none, zero_add]
      rw [wrapInt64_of_range _ (by omega) hbound]
  · intro env method body s hne
    unfold handleCreateOrder at hne ⊢
    by_cases hm : method = "POST"
    swap
    · simp [hm]
    by_cases hs : getSelectedSession s = ""
    · simp [hm, hs]
    cases body with
    | none => simp [hm, hs]
    | some req =>
      by_cases hd : trimSpace req.Drink = ""
      · simp [hm, hs, hd]
      by_cases hc : trimSpace req.CustomerName = ""
      · simp [hm, hs, hd, hc]
      by_cases hmenu : drinkOnMenu env (trimSpace req.Drink) = true
      swap
      · simp [hm, hs, hd, hc, hmenu]
      simp only [hm, hs, hd, hc, hmenu, ne_eq, not_true_eq_false, if_false, Bool.not_true,
        Bool.false_eq_true] at hne ⊢
      revert hne
      split
      · intro _; rfl
      · split
        · intro hne; exact absurd rfl (hne _)
        · intro hne; exact absurd rfl (hne _)

/-- Witness of C4: two Latte submissions into the session `s1`, starting
without a popularity record, leave the count 2. -/
theorem popularity_count_invariant_witness :
    storedCount (submitOrders [sampleStep, sampleStep] ⟨"s1", sampleStore, none⟩).2.popular
      "Latte" = some 2 :=
  (popularity_count_invariant [sampleStep, sampleStep] ⟨"s1", sampleStore, none⟩ "Latte" rfl
    (by decide) (by decide)).1

/-- C4 as stated fails once the count leaves the range of the Go `int`: after
2^63 successful Latte submissions, none with a logged popularity failure, the
stored count of Latte is -2^63 and not the number of stored orders. -/
theorem popularity_count_overflow_counterexample :
    (∀ out ∈ (submitOrders (List.replicate (2 ^ 63) sampleStep)
        ⟨"s1", sampleStore, none⟩).1, out.popularFailureLogged = false) ∧
    appendedCount "Latte"
      (submitOrders (List.replicate (2 ^ 63) sampleStep) ⟨"s1", sampleStore, none⟩).1
      = 2 ^ 63 ∧
    storedCount
      (submitOrders (List.replicate (2 ^ 63) sampleStep) ⟨"s1", sampleStore, none⟩).2.popular
      "Latte" = some (-9223372036854775808) := by
  obtain ⟨h1, h2⟩ := sampleStep_replicate (2 ^ 63) none
  refine ⟨h1, h2, ?_⟩
  rw [submitOrders_popular _ _ "Latte" h1, h2]
  decide

/-- C8 at the failing input: the name `../x` is not a valid session name and
`handleCreateSession` rejects it without touching the storage, but
`adminHandleOrders` hands it to `readOrdersFromSession` unchecked, which
enumerates the directory `x` beside the sessions root and returns its order. -/
theorem adminHandleOrders_unvalidated_name :
    isValidSessionName "../x" = false ∧
    handleCreateSession sampleEnv "POST" (some "../x") ⟨"", outsideStore, none⟩ =
      (.invalidSessionName, ⟨"", outsideStore, none⟩) ∧
    sessionFolderPath "../x" = ["x"] ∧
    adminHandleOrders sampleEnv "GET" "../x" ⟨"", outsideStore, none⟩ =
      .ok "../x" [⟨"7", "Mocha", "Eve", "", 1700000000000000009⟩] := by
  refine ⟨by decide, by decide, by decide, by decide⟩

/-- Witness of C5: with the ASCII menu Latte, Mocha the ASCII drink LATTE is
on the menu exactly because it equals Latte after lower-casing, and a
submission of Unicorn Frappe into the selected session `s1` is answered with
"drink not on menu" and stores nothing. -/
theorem drinkOnMenu_iff_witness :
    (drinkOnMenu sampleEnv "LATTE" = true ↔
      ∃ item ∈ sampleEnv.menu, item.data.map Char.toLower = "LATTE".data.map Char.toLower) ∧
    (handleCreateOrder sampleEnv "POST" (some ⟨"Unicorn Frappe", "Ann", ""⟩)
      ⟨"s1", sampleStore, none⟩).state = ⟨"s1", sampleStore, none⟩ ∧
    (handleCreateOrder sampleEnv "POST" (some ⟨"Unicorn Frappe", "Ann", ""⟩)
      ⟨"s1", sampleStore, none⟩).response = .drinkNotOnMenu :=
  ⟨(drinkOnMenu_iff sampleEnv "LATTE").2.1 (by decide) (by decide),
    ((drinkOnMenu_iff sampleEnv "latte").2.2.2 "POST" ⟨"Unicorn Frappe", "Ann", ""⟩
      ⟨"s1", sampleStore, none⟩ (by decide)).1,
    ((drinkOnMenu_iff sampleEnv "latte").2.2.2 "POST" ⟨"Unicorn Frappe", "Ann", ""⟩
      ⟨"s1", sampleStore, none⟩ (by decide)).2.2 rfl (by decide) (by decide) (by decide)⟩

/-- Witness of C7: the session `s1` of the sample store is read back as its one order. -/
theorem readOrdersFromSession_spec_witness :
    readOrdersFromSession false sampleStore "s1" =
      .ok [⟨"1700000000000000001", "Latte", "Ann", "", 1700000000000000002⟩] :=
  (readOrdersFromSession_spec false sampleStore "s1").1
    [("order-1700000000000000001.json",
      .file true (.order ⟨"1700000000000000001", "Latte", "Ann", "", 1700000000000000002⟩))]
    rfl

end TeaOrCoffee
